import Mathlib

/-!
Shallow embedding of `src/utils/mediaConverter.ts` (the current revision of the
file, the one with cancellation support).  The stateful TypeScript code is
modelled by explicit state passing: a `St` record of counters indexes the
successive reads of the process-wide cancellation flag and the successive
engine operations, and an `Env` record gives the outcome of each external
interaction (flag reads after the reset at the start of the job, write/exec/
read/delete outcomes of the FFmpeg engine, progress reports the engine emits
during each exec, and the decoded frame count of an animated WebP input).
Every observable action (resource registration, engine invocation, progress
callback, log callback, deletion attempt) is recorded in an event trace.

Linearization notes: the per-frame writes of one batch run concurrently in the
source but never emit progress or logs; the trace lists them in index order.
Engine progress reports arrive during an exec; the trace lists them right
after the `exec` event.  Engine-emitted log lines (the `on('log')` handler)
carry no information the claims use and are not traced.  `NaN` progress
values are filtered out by the source before use, so reports are modelled as
rationals directly.
-/

namespace MediaConvert

/-- Input file: declared name, declared MIME type, byte length (`File`). -/
structure MFile where
  name : String
  mime : String
  size : Nat
  deriving DecidableEq, Repr

/-- Result of a successful conversion: output bytes tagged with a MIME type
(the `Blob`; the byte payload itself is irrelevant to every claim). -/
structure Blob where
  mime : String
  deriving DecidableEq, Repr

/-- The distinct failure kinds of `convertMedia` (each corresponds to a
`throw new Error(...)` site in the source; engine-originated errors are
abstracted by the constructor, their message text being external). -/
inductive ConvError where
  | fileTooLarge                          : ConvError
  | unsupportedTargetFormat (fmt : String) : ConvError
  | engineUnavailable                     : ConvError
  | engineExecutionFailed                 : ConvError
  | writeFailed                           : ConvError
  | readFailed                            : ConvError
  | cancelled                             : ConvError
  deriving DecidableEq, Repr

/-- Observable events of one Job, in order. -/
inductive Event where
  | writeFile (name : String) : Event
  | exec (args : List String) : Event
  | readFile (name : String) : Event
  | deleteFile (name : String) : Event
  | progress (n : Int) : Event
  | log (msg : String) : Event
  deriving DecidableEq, Repr

/-- Counters indexing the successive external interactions of one Job:
cancellation-flag reads, engine writes, engine execs, engine reads, engine
deletes. -/
structure St where
  chk : Nat
  wr : Nat
  ex : Nat
  rd : Nat
  del : Nat
  deriving DecidableEq, Repr

def St.bumpChk (st : St) : St := { st with chk := st.chk + 1 }

def St.bumpWr (st : St) : St := { st with wr := st.wr + 1 }

def St.bumpEx (st : St) : St := { st with ex := st.ex + 1 }

def St.bumpRd (st : St) : St := { st with rd := st.rd + 1 }

def St.bumpDel (st : St) : St := { st with del := st.del + 1 }

def St.init : St := ⟨0, 0, 0, 0, 0⟩

/-- External behaviour of one Job: `cancel k` is the value of the process-wide
`isCancelled` flag at its `k`-th read after the reset at the start of the job;
`writeOk`/`execOk`/`readOk`/`deleteOk` give the outcome of the `k`-th
corresponding FFmpeg operation; `execProgress k` lists the progress reports
(each in 0.0–1.0 per the engine contract) emitted during the `k`-th exec;
`frames` is the decoded frame count of an animated-WebP input;
`ffmpegAvailable` says whether the shared FFmpeg instance is set. -/
structure Env where
  ffmpegAvailable : Bool
  cancel : Nat → Bool
  writeOk : Nat → Bool
  execOk : Nat → Bool
  readOk : Nat → Bool
  deleteOk : Nat → Bool
  execProgress : Nat → List ℚ
  frames : Nat

/-- JavaScript `Math.round` on the (rational) values the source rounds:
round half toward positive infinity. -/
def jsRound (q : ℚ) : Int := ⌊q + 1/2⌋

/-- Progress value reported after an extraction batch has completed `e` of `N`
frames: `Math.round((end / frameCount) * 40)` (line 273). -/
def extractProgress (N e : Nat) : Int := jsRound ((e : ℚ) / (N : ℚ) * 40)

/-- Progress value forwarded while the animated-WebP encode pass runs, for an
engine report `p`: `40 + Math.round(progress * 60)` (line 311). -/
def encodeProgress (p : ℚ) : Int := 40 + jsRound (p * 60)

/-- Progress value forwarded on the generic path, for an engine report `p`:
`Math.round(event.progress * 100)` (line 375). -/
def genProgress (p : ℚ) : Int := jsRound (p * 100)

/-- Whether the second character list begins with the first one. -/
def startsCharList : List Char → List Char → Bool
  | [], _ => true
  | _ :: _, [] => false
  | c :: cs, d :: ds => c == d && startsCharList cs ds

/-- JavaScript `String.prototype.startsWith`. -/
def jsStartsWith (s p : String) : Bool := startsCharList p.data s.data

/-- Helper for `jsIncludes`: does the needle occur at any position. -/
def hasSubstring (pat : String) : List Char → Bool
  | [] => false
  | c :: cs => startsCharList pat.data (c :: cs) || hasSubstring pat cs

/-- JavaScript `String.prototype.includes` for the non-empty needle this code
uses. -/
def jsIncludes (s pat : String) : Bool := hasSubstring pat s.data

/-- JavaScript `String.prototype.toLowerCase` on the ASCII tokens this code
compares (target-format strings and MIME types). -/
def jsToLower (s : String) : String := String.mk (s.data.map Char.toLower)

/-- JavaScript `padStart(4, '0')`. -/
def padStart4 (s : String) : String :=
  String.mk (List.replicate (4 - s.length) '0') ++ s

/-- Name of the `j`-th extracted frame: `frame-${j.toString().padStart(4, '0')}.png`. -/
def frameName (j : Nat) : String := "frame-" ++ padStart4 (toString j) ++ ".png"

/-- Source `isVideoFormat`. -/
def isVideoFormat (format : String) : Bool :=
  ["mp4", "webm", "mov", "mkv", "avi", "flv", "gif"].contains (jsToLower format)

/-- Source `isAudioFormat`. -/
def isAudioFormat (format : String) : Bool :=
  ["mp3", "wav", "ogg", "aac", "m4a", "flac"].contains (jsToLower format)

/-- Source `getVideoCodec`. -/
def getVideoCodec (format : String) : String :=
  match jsToLower format with
  | "mp4" => "libx264"
  | "webm" => "libvpx-vp9"
  | "gif" => "gif"
  | _ => "libx264"

/-- Source `getAudioCodec`. -/
def getAudioCodec (format : String) : String :=
  match jsToLower format with
  | "mp3" => "libmp3lame"
  | "aac" => "aac"
  | "ogg" => "libvorbis"
  | "wav" => "pcm_s16le"
  | "m4a" => "aac"
  | "flac" => "flac"
  | _ => "aac"

/-- The `formatMap` lookup of `convertWithImageMagick` (keyed by the
lowercased target format). -/
def magickFormatMap (fmt : String) : Option String :=
  match fmt with
  | "png" => some "Png"
  | "jpg" => some "Jpg"
  | "jpeg" => some "Jpg"
  | "webp" => some "WebP"
  | "gif" => some "Gif"
  | "bmp" => some "Bmp"
  | "tiff" => some "Tiff"
  | _ => none

/-- Message text used by the `convertMedia` catch handler's
`onLog('Conversion error: ...')` line; engine-originated messages are
abstracted. -/
def describeErr : ConvError → String
  | .fileTooLarge => "Error: File too large. Maximum size is 100MB."
  | .unsupportedTargetFormat f => "Error: Unsupported target format: " ++ f
  | .engineUnavailable =>
      "Error: FFmpeg is not initialized. Please wait for initialization to complete."
  | .engineExecutionFailed => "Error: engine execution failed"
  | .writeFailed => "Error: engine write failed"
  | .readFailed => "Error: engine read failed"
  | .cancelled => "Error: Conversion cancelled"

/-- Source `cleanupTempFiles` loop body: one `deleteFile` attempt per name; a
failing deletion only logs a warning (`onLog`), it is never rethrown. -/
def cleanupGo (env : Env) (st : St) : List String → St × List Event
  | [] => (st, [])
  | f :: fs =>
    let ok := env.deleteOk st.del
    let st1 := st.bumpDel
    let ev1 := if ok then [Event.deleteFile f]
      else [Event.deleteFile f, Event.log ("Warning: Could not delete file " ++ f)]
    let (st2, ev2) := cleanupGo env st1 fs
    (st2, ev1 ++ ev2)

/-- Source `cleanupTempFiles`: `if (!ffmpegInstance) return;` then the loop. -/
def cleanupTempFiles (env : Env) (avail : Bool) (st : St) (files : List String) :
    St × List Event :=
  if avail then cleanupGo env st files else (st, [])

/-- One `ffmpeg.exec` call: the invocation is traced, each progress report the
engine emits during it is forwarded through the currently-installed progress
handler `mapP`, and the Boolean tells whether the exec resolved. -/
def doExec (env : Env) (st : St) (args : List String) (mapP : ℚ → Int) :
    St × List Event × Bool :=
  let reports := env.execProgress st.ex
  let ok := env.execOk st.ex
  (st.bumpEx, Event.exec args :: reports.map (fun p => Event.progress (mapP p)), ok)

/-- Source `convertWithImageMagick` (lines 108-170): read the bytes, look the
target format up in `formatMap` (rejecting unknown formats), re-encode, tag
the result `image/<targetFormat>`; the cancellation flag is consulted before
reading, inside the read callback and inside the write callback. -/
def convertWithImageMagick (file : MFile) (fmt : String) (env : Env) (st : St) :
    St × List Event × Except ConvError Blob :=
  let _ := file
  let ev0 := [Event.log "Reading image data..."]
  let c1 := env.cancel st.chk
  let st := st.bumpChk
  if c1 then (st, ev0, .error .cancelled) else
  let c2 := env.cancel st.chk
  let st := st.bumpChk
  if c2 then (st, ev0, .error .cancelled) else
  let ev1 := ev0 ++ [Event.progress 50]
  match magickFormatMap (jsToLower fmt) with
  | none => (st, ev1, .error (.unsupportedTargetFormat fmt))
  | some key =>
    let ev2 := ev1 ++ [Event.log ("Converting to format: " ++ key)]
    let c3 := env.cancel st.chk
    let st := st.bumpChk
    if c3 then (st, ev2, .error .cancelled) else
    (st, ev2 ++ [Event.progress 100], .ok { mime := "image/" ++ fmt })

/-- One frame of the extraction pipeline (lines 239-264): the flag is checked
before the frame encode and again in the write callback; a cancelled frame
resolves without registering; a failed `writeFile` is caught, logged to the
console only, and the frame's promise still resolves. -/
def runFrame (env : Env) (st : St) (j : Nat) : St × List Event :=
  let c1 := env.cancel st.chk
  let st := st.bumpChk
  if c1 then (st, []) else
  let c2 := env.cancel st.chk
  let st := st.bumpChk
  if c2 then (st, []) else
  let ok := env.writeOk st.wr
  let st := st.bumpWr
  if ok then (st, [Event.writeFile (frameName j)]) else (st, [])

/-- One batch of up to `BATCH_SIZE = 10` frames, awaited as a whole. -/
def runBatch (env : Env) (st : St) : List Nat → St × List Event
  | [] => (st, [])
  | j :: js =>
    let (st1, e1) := runFrame env st j
    let (st2, e2) := runBatch env st1 js
    (st2, e1 ++ e2)

/-- The batch loop of frame extraction (lines 226-276): starting at index `i`,
check the flag (rejecting the whole extraction promise when set), process the
batch `[i, min (i+10) N)`, then report progress
`Math.round((end / frameCount) * 40)` and a log line, and continue at `end`.
The loop advances by at least one frame per iteration while `i < N`, so any
fuel of at least `N - i` makes the fuel-exhaustion arm unreachable; the caller
passes `N` (and every lemma below carries the bound `N - i ≤ fuel`).  The fuel
keeps the recursion structural, so concrete runs evaluate inside the kernel. -/
def extractLoop (env : Env) (N : Nat) : Nat → St → Nat → St × List Event × Except ConvError Unit
  | 0, st, _ => (st, [], .ok ())
  | fuel + 1, st, i =>
    if i < N then
      let c := env.cancel st.chk
      let st1 := st.bumpChk
      if c then (st1, [], .error .cancelled) else
      let e := min (i + 10) N
      let B := runBatch env st1 (List.range' i (e - i))
      let ev3 := [Event.progress (extractProgress N e),
        Event.log ("Processed " ++ toString e ++ "/" ++ toString N ++ " frames")]
      let L := extractLoop env N fuel B.1 e
      (L.1, B.2 ++ ev3 ++ L.2.1, L.2.2)
    else (st, [], .ok ())

/-- The batch ends visited by `extractLoop` from index `i`:
`min (i+10) N, min (i+20) N, ..., N`. -/
def batchEnds (N i : Nat) : List Nat :=
  if _h : i < N then min (i + 10) N :: batchEnds N (min (i + 10) N)
  else []
termination_by N - i
decreasing_by
  have h10 : i < min (i + 10) N := by omega
  omega

/-- FFmpeg argument vector of the single encode pass of the animated-WebP
pipeline (lines 316-328). -/
def animArgs (fmt : String) : List String :=
  ["-framerate", "25", "-i", "frame-%04d.png",
   "-vf", "scale=trunc(iw/2)*2:trunc(ih/2)*2",
   "-c:v", getVideoCodec fmt, "-pix_fmt", "yuv420p", "output." ++ fmt]

/-- The animated WebP → video path of `convertWithFFmpeg` (lines 200-354).
The fourth component is the value of the `tempFiles` variable when the path
exits (the catch at line 503 cleans exactly that list up): it is `[]` until
line 300 assigns the extracted frame names to it. -/
def animPath (file : MFile) (fmt : String) (env : Env) (st : St) :
    St × List Event × Except ConvError Blob × List String :=
  let _ := file
  let ev0 := [Event.log "Detected animated WEBP input, extracting frames with ImageMagick..."]
  let c0 := env.cancel st.chk
  let st := st.bumpChk
  if c0 then (st, ev0, .error .cancelled, []) else
  let N := env.frames
  let L := extractLoop env N N st 0
  let st := L.1
  let evL := L.2.1
  match L.2.2 with
  | .error e => (st, ev0 ++ evL, .error e, [])
  | .ok _ =>
    let names := (List.range N).map frameName
    let ev1 := ev0 ++ evL ++ [Event.log "All frames extracted and written to FFmpeg filesystem"]
    let c1 := env.cancel st.chk
    let st := st.bumpChk
    if c1 then
      let C := cleanupTempFiles env env.ffmpegAvailable st names
      (C.1, ev1 ++ C.2, .error .cancelled, [])
    else
      let outputName := "output." ++ fmt
      let args := animArgs fmt
      let ev2 := ev1 ++ [Event.log ("Converting frames to " ++ outputName),
        Event.log ("Running FFmpeg with args: " ++ String.intercalate " " args)]
      let D := doExec env st args encodeProgress
      let st := D.1
      let ev3 := ev2 ++ D.2.1
      if !D.2.2 then (st, ev3, .error .engineExecutionFailed, names) else
      let c2 := env.cancel st.chk
      let st := st.bumpChk
      if c2 then
        let C := cleanupTempFiles env env.ffmpegAvailable st (names ++ [outputName])
        (C.1, ev3 ++ C.2, .error .cancelled, names)
      else
        let ev4 := ev3 ++ [Event.log "Conversion completed", Event.log "Reading output file...",
          Event.readFile outputName]
        let okR := env.readOk st.rd
        let st := st.bumpRd
        if !okR then (st, ev4, .error .readFailed, names) else
        let ev5 := ev4 ++ [Event.log "Output file read successfully",
          Event.log "Cleaning up temporary files..."]
        let C := cleanupTempFiles env env.ffmpegAvailable st
          (names ++ [outputName, "palette.png"])
        (C.1, ev5 ++ C.2, .ok { mime := "video/" ++ fmt }, names)

/-- Scenario argument construction of the generic path (lines 380-445):
first match wins; an unmatched combination leaves the vector empty. -/
def scenarioArgs (iv ia tv ta : Bool) (inputName outputName fmt : String) : List String :=
  if !iv && !ia && tv then
    ["-loop", "1", "-t", "5", "-i", inputName, "-c:v", getVideoCodec fmt,
     "-pix_fmt", "yuv420p", "-r", "25", outputName]
  else if iv && !tv && !ta then
    ["-i", inputName, "-vf", "scale=iw:ih", "-frames:v", "1", outputName]
  else if iv && tv then
    ["-i", inputName, "-c:v", getVideoCodec fmt, "-c:a", getAudioCodec fmt, outputName]
  else if ia && ta then
    ["-i", inputName, "-c:a", getAudioCodec fmt, outputName]
  else if iv && ta then
    ["-i", inputName, "-vn", "-c:a", getAudioCodec fmt, outputName]
  else []

/-- Palette-generation argument vector of the video → GIF special case
(lines 453-459). -/
def paletteGenArgs (inputName : String) : List String :=
  ["-i", inputName, "-filter_complex", "[0:v] palettegen", "palette.png"]

/-- Palette-use argument vector of the video → GIF special case
(lines 462-470). -/
def paletteUseArgs (inputName outputName : String) : List String :=
  ["-i", inputName, "-i", "palette.png", "-filter_complex", "[0:v][1:v] paletteuse",
   outputName]

/-- Tail of the generic path from the main `ffmpeg.exec` on (lines 473-501):
run the args (a failing exec is reclassified `Cancelled` when the flag is
set), check the flag, read the output, clean up input/output/palette, and tag
the result `video/` or `image/` by the target kind. -/
def genericTail (env : Env) (fmt : String) (tv : Bool) (inputName outputName : String)
    (args : List String) (st : St) : St × List Event × Except ConvError Blob :=
  let ev0 := [Event.log ("Running FFmpeg with args: " ++ String.intercalate " " args)]
  let D := doExec env st args genProgress
  let st := D.1
  let ev1 := ev0 ++ D.2.1
  if !D.2.2 then
    let c := env.cancel st.chk
    let st := st.bumpChk
    if c then (st, ev1, .error .cancelled) else (st, ev1, .error .engineExecutionFailed)
  else
  let c := env.cancel st.chk
  let st := st.bumpChk
  if c then (st, ev1, .error .cancelled) else
  let ev2 := ev1 ++ [Event.log "Conversion completed", Event.log "Reading output file...",
    Event.readFile outputName]
  let okR := env.readOk st.rd
  let st := st.bumpRd
  if !okR then (st, ev2, .error .readFailed) else
  let ev3 := ev2 ++ [Event.log "Output file read successfully",
    Event.log "Cleaning up temporary files..."]
  let C := cleanupTempFiles env env.ffmpegAvailable st
    [inputName, outputName, "palette.png"]
  (C.1, ev3 ++ C.2,
    .ok { mime := (if tv then "video/" else "image/") ++ fmt })

/-- The generic path of `convertWithFFmpeg` (lines 355-502): write the input
file, check the flag (cleaning the input up on cancellation), build the
scenario argument vector, run the palette pass first for video → GIF, then
hand over to `genericTail`.  The `tempFiles` variable stays `[]` on this whole
path. -/
def genericPath (file : MFile) (fmt : String) (env : Env) (iv ia tv ta : Bool) (st : St) :
    St × List Event × Except ConvError Blob :=
  let inputName := "input_" ++ file.name
  let outputName := "output." ++ fmt
  let ev0 := [Event.log ("Converting " ++ inputName ++ " to " ++ outputName),
    Event.log "Writing input file to FFmpeg filesystem..."]
  let okW := env.writeOk st.wr
  let st := st.bumpWr
  if !okW then (st, ev0, .error .writeFailed) else
  let ev1 := ev0 ++ [Event.writeFile inputName]
  let c := env.cancel st.chk
  let st := st.bumpChk
  if c then
    let C := cleanupTempFiles env env.ffmpegAvailable st [inputName]
    (C.1, ev1 ++ C.2, .error .cancelled)
  else
  let evB := if !iv && !ia && tv then
    [Event.log "Detected image → video scenario; defaulting to 5 seconds, 25 fps."] else []
  let args0 := scenarioArgs iv ia tv ta inputName outputName fmt
  if iv && jsToLower fmt == "gif" then
    let ev2 := ev1 ++ evB ++
      [Event.log "Detected video → GIF; using palette-based approach for better quality."]
    let D := doExec env st (paletteGenArgs inputName) genProgress
    let st := D.1
    let ev3 := ev2 ++ D.2.1
    if !D.2.2 then (st, ev3, .error .engineExecutionFailed) else
    let T := genericTail env fmt tv inputName outputName
      (paletteUseArgs inputName outputName) st
    (T.1, ev3 ++ T.2.1, T.2.2)
  else
    let T := genericTail env fmt tv inputName outputName args0 st
    (T.1, ev1 ++ evB ++ T.2.1, T.2.2)

/-- Source `convertWithFFmpeg` (lines 176-508): fail fast when the shared
FFmpeg instance is absent (before the try, so without cleanup), otherwise run
the animated-WebP or generic path; the catch at line 503 cleans up the
`tempFiles` list the exiting path left behind and rethrows. -/
def convertWithFFmpeg (file : MFile) (fmt : String) (env : Env) (iv ia tv ta : Bool)
    (st : St) : St × List Event × Except ConvError Blob :=
  if !env.ffmpegAvailable then (st, [], .error .engineUnavailable) else
  let B :=
    if file.mime == "image/webp" && tv then animPath file fmt env st
    else
      let G := genericPath file fmt env iv ia tv ta st
      (G.1, G.2.1, G.2.2, [])
  match B.2.2.1 with
  | .ok b => (B.1, B.2.1, .ok b)
  | .error e =>
    let C := cleanupTempFiles env env.ffmpegAvailable B.1 B.2.2.2
    (C.1, B.2.1 ++ C.2, .error e)

/-- Body of the `try` of `convertMedia` (lines 61-93): size limit, kind
classification, and routing between the ImageMagick fast path and the FFmpeg
path. -/
def convertMediaCore (file : MFile) (fmt : String) (env : Env) (st : St) :
    St × List Event × Except ConvError Blob :=
  if file.size > 100 * 1024 * 1024 then (st, [], .error .fileTooLarge) else
  let iv := jsStartsWith file.mime "video/"
  let ia := jsStartsWith file.mime "audio/"
  let tv := isVideoFormat fmt
  let ta := isAudioFormat fmt
  let i2i := !iv && !ia && !tv && !ta
  if i2i && (!jsIncludes file.mime "webp" || jsToLower fmt == "png") then
    convertWithImageMagick file fmt env st
  else
    convertWithFFmpeg file fmt env iv ia tv ta st

/-- Source `convertMedia` (lines 52-102).  The `pre` argument is the value of
the process-wide `isCancelled` flag when the job starts; line 59 resets it
before anything else, so the run never depends on it.  The catch handler
rethrows `Conversion cancelled` whenever the flag reads true, and otherwise
logs the error and rethrows it.  A `fileTooLarge` or `engineUnavailable`
throw is reached without crossing any `await` after the reset, so the flag is
still provably false at the catch for those two errors and no read is
consumed. -/
def convertMedia (pre : Bool) (file : MFile) (fmt : String) (env : Env) :
    St × List Event × Except ConvError Blob :=
  let _ := pre
  let K := convertMediaCore file fmt env St.init
  let st := K.1
  let ev := K.2.1
  match K.2.2 with
  | .ok b => (st, ev, .ok b)
  | .error .fileTooLarge =>
    (st, ev ++ [Event.log ("Conversion error: " ++ describeErr .fileTooLarge)],
      .error .fileTooLarge)
  | .error .engineUnavailable =>
    (st, ev ++ [Event.log ("Conversion error: " ++ describeErr .engineUnavailable)],
      .error .engineUnavailable)
  | .error e =>
    let c := env.cancel st.chk
    let st := st.bumpChk
    if c then (st, ev, .error .cancelled)
    else (st, ev ++ [Event.log ("Conversion error: " ++ describeErr e)], .error e)

/-- Names registered in the engine's working filesystem (successful writes). -/
def registeredOf (tr : List Event) : List String :=
  tr.filterMap fun e => match e with | .writeFile n => some n | _ => none

/-- Argument vectors of the engine invocations, in order. -/
def execsOf (tr : List Event) : List (List String) :=
  tr.filterMap fun e => match e with | .exec a => some a | _ => none

/-- Names whose deletion was attempted, in order (with multiplicity). -/
def deletionsOf (tr : List Event) : List String :=
  tr.filterMap fun e => match e with | .deleteFile n => some n | _ => none

/-- Values passed to the `onProgress` callback, in order. -/
def progressesOf (tr : List Event) : List Int :=
  tr.filterMap fun e => match e with | .progress n => some n | _ => none

/-- Whether an event touches the transcoding engine's working filesystem or
invokes it (everything except progress and log callbacks). -/
def Event.isEngine : Event → Bool
  | .progress _ => false
  | .log _ => false
  | _ => true

/-- The engine-touching events of a trace. -/
def engineEventsOf (tr : List Event) : List Event := tr.filter Event.isEngine

/-- Outcome projection of a run. -/
def resultOf (x : St × List Event × Except ConvError Blob) : Except ConvError Blob :=
  x.2.2

/-- Trace projection of a run. -/
def traceOf (x : St × List Event × Except ConvError Blob) : List Event :=
  x.2.1

/-- State projection of a run. -/
def stateOf (x : St × List Event × Except ConvError Blob) : St :=
  x.1

/-- Environment in which every external interaction succeeds and the
cancellation flag is never set (used by concrete witnesses). -/
def envAllOk : Env :=
  { ffmpegAvailable := true, cancel := fun _ => false, writeOk := fun _ => true,
    execOk := fun _ => true, readOk := fun _ => true, deleteOk := fun _ => true,
    execProgress := fun _ => [], frames := 3 }

/-- Two environments that agree on everything except (possibly) the outcomes
of deletion attempts.  Runs under two such environments differ only in
cleanup-warning log lines. -/
def EnvAgree (e1 e2 : Env) : Prop :=
  e1.ffmpegAvailable = e2.ffmpegAvailable ∧ e1.cancel = e2.cancel ∧
  e1.writeOk = e2.writeOk ∧ e1.execOk = e2.execOk ∧ e1.readOk = e2.readOk ∧
  e1.execProgress = e2.execProgress ∧ e1.frames = e2.frames

section ProjectionLemmas

@[simp] theorem registeredOf_nil : registeredOf [] = [] := rfl

@[simp] theorem registeredOf_append (a b : List Event) :
    registeredOf (a ++ b) = registeredOf a ++ registeredOf b :=
  List.filterMap_append ..

@[simp] theorem registeredOf_cons_write (n : String) (tr : List Event) :
    registeredOf (Event.writeFile n :: tr) = n :: registeredOf tr := rfl

@[simp] theorem registeredOf_cons_exec (a : List String) (tr : List Event) :
    registeredOf (Event.exec a :: tr) = registeredOf tr := rfl

@[simp] theorem registeredOf_cons_readFile (n : String) (tr : List Event) :
    registeredOf (Event.readFile n :: tr) = registeredOf tr := rfl

@[simp] theorem registeredOf_cons_deleteFile (n : String) (tr : List Event) :
    registeredOf (Event.deleteFile n :: tr) = registeredOf tr := rfl

@[simp] theorem registeredOf_cons_progress (n : Int) (tr : List Event) :
    registeredOf (Event.progress n :: tr) = registeredOf tr := rfl

@[simp] theorem registeredOf_cons_log (m : String) (tr : List Event) :
    registeredOf (Event.log m :: tr) = registeredOf tr := rfl

@[simp] theorem execsOf_nil : execsOf [] = [] := rfl

@[simp] theorem execsOf_append (a b : List Event) :
    execsOf (a ++ b) = execsOf a ++ execsOf b :=
  List.filterMap_append ..

@[simp] theorem execsOf_cons_write (n : String) (tr : List Event) :
    execsOf (Event.writeFile n :: tr) = execsOf tr := rfl

@[simp] theorem execsOf_cons_exec (a : List String) (tr : List Event) :
    execsOf (Event.exec a :: tr) = a :: execsOf tr := rfl

@[simp] theorem execsOf_cons_readFile (n : String) (tr : List Event) :
    execsOf (Event.readFile n :: tr) = execsOf tr := rfl

@[simp] theorem execsOf_cons_deleteFile (n : String) (tr : List Event) :
    execsOf (Event.deleteFile n :: tr) = execsOf tr := rfl

@[simp] theorem execsOf_cons_progress (n : Int) (tr : List Event) :
    execsOf (Event.progress n :: tr) = execsOf tr := rfl

@[simp] theorem execsOf_cons_log (m : String) (tr : List Event) :
    execsOf (Event.log m :: tr) = execsOf tr := rfl

@[simp] theorem deletionsOf_nil : deletionsOf [] = [] := rfl

@[simp] theorem deletionsOf_append (a b : List Event) :
    deletionsOf (a ++ b) = deletionsOf a ++ deletionsOf b :=
  List.filterMap_append ..

@[simp] theorem deletionsOf_cons_write (n : String) (tr : List Event) :
    deletionsOf (Event.writeFile n :: tr) = deletionsOf tr := rfl

@[simp] theorem deletionsOf_cons_exec (a : List String) (tr : List Event) :
    deletionsOf (Event.exec a :: tr) = deletionsOf tr := rfl

@[simp] theorem deletionsOf_cons_readFile (n : String) (tr : List Event) :
    deletionsOf (Event.readFile n :: tr) = deletionsOf tr := rfl

@[simp] theorem deletionsOf_cons_deleteFile (n : String) (tr : List Event) :
    deletionsOf (Event.deleteFile n :: tr) = n :: deletionsOf tr := rfl

@[simp] theorem deletionsOf_cons_progress (n : Int) (tr : List Event) :
    deletionsOf (Event.progress n :: tr) = deletionsOf tr := rfl

@[simp] theorem deletionsOf_cons_log (m : String) (tr : List Event) :
    deletionsOf (Event.log m :: tr) = deletionsOf tr := rfl

@[simp] theorem progressesOf_nil : progressesOf [] = [] := rfl

@[simp] theorem progressesOf_append (a b : List Event) :
    progressesOf (a ++ b) = progressesOf a ++ progressesOf b :=
  List.filterMap_append ..

@[simp] theorem progressesOf_cons_write (n : String) (tr : List Event) :
    progressesOf (Event.writeFile n :: tr) = progressesOf tr := rfl

@[simp] theorem progressesOf_cons_exec (a : List String) (tr : List Event) :
    progressesOf (Event.exec a :: tr) = progressesOf tr := rfl

@[simp] theorem progressesOf_cons_readFile (n : String) (tr : List Event) :
    progressesOf (Event.readFile n :: tr) = progressesOf tr := rfl

@[simp] theorem progressesOf_cons_deleteFile (n : String) (tr : List Event) :
    progressesOf (Event.deleteFile n :: tr) = progressesOf tr := rfl

@[simp] theorem progressesOf_cons_progress (n : Int) (tr : List Event) :
    progressesOf (Event.progress n :: tr) = n :: progressesOf tr := rfl

@[simp] theorem progressesOf_cons_log (m : String) (tr : List Event) :
    progressesOf (Event.log m :: tr) = progressesOf tr := rfl

@[simp] theorem engineEventsOf_nil : engineEventsOf [] = [] := rfl

@[simp] theorem engineEventsOf_append (a b : List Event) :
    engineEventsOf (a ++ b) = engineEventsOf a ++ engineEventsOf b :=
  List.filter_append ..

@[simp] theorem engineEventsOf_cons_progress (n : Int) (tr : List Event) :
    engineEventsOf (Event.progress n :: tr) = engineEventsOf tr := rfl

@[simp] theorem engineEventsOf_cons_log (m : String) (tr : List Event) :
    engineEventsOf (Event.log m :: tr) = engineEventsOf tr := rfl

end ProjectionLemmas

section JsRoundLemmas

theorem jsRound_mono {q r : ℚ} (h : q ≤ r) : jsRound q ≤ jsRound r :=
  Int.floor_le_floor (by linarith)

theorem jsRound_nonneg {q : ℚ} (h : 0 ≤ q) : 0 ≤ jsRound q := by
  unfold jsRound
  rw [Int.le_floor]
  norm_num
  linarith

theorem jsRound_le {q : ℚ} {b : ℤ} (h : q ≤ (b : ℚ)) : jsRound q ≤ b := by
  unfold jsRound
  rw [Int.floor_le_iff]
  have hb : ((b : ℚ) + 1) = ((b + 1 : ℤ) : ℚ) := by push_cast; ring
  linarith

end JsRoundLemmas

section CleanupLemmas

theorem cleanupGo_fst (env : Env) (st : St) (fs : List String) :
    (cleanupGo env st fs).1 = { st with del := st.del + fs.length } := by
  induction fs generalizing st with
  | nil => simp [cleanupGo]
  | cons f fs ih =>
    simp only [cleanupGo, ih, St.bumpDel, List.length_cons]
    congr 1
    omega

theorem cleanupGo_deletions (env : Env) (st : St) (fs : List String) :
    deletionsOf (cleanupGo env st fs).2 = fs := by
  induction fs generalizing st with
  | nil => simp [cleanupGo]
  | cons f fs ih =>
    simp only [cleanupGo]
    split <;> simp [ih]

theorem cleanupGo_registered (env : Env) (st : St) (fs : List String) :
    registeredOf (cleanupGo env st fs).2 = [] := by
  induction fs generalizing st with
  | nil => simp [cleanupGo]
  | cons f fs ih =>
    simp only [cleanupGo]
    split <;> simp [ih]

theorem cleanupGo_execs (env : Env) (st : St) (fs : List String) :
    execsOf (cleanupGo env st fs).2 = [] := by
  induction fs generalizing st with
  | nil => simp [cleanupGo]
  | cons f fs ih =>
    simp only [cleanupGo]
    split <;> simp [ih]

theorem cleanupGo_progresses (env : Env) (st : St) (fs : List String) :
    progressesOf (cleanupGo env st fs).2 = [] := by
  induction fs generalizing st with
  | nil => simp [cleanupGo]
  | cons f fs ih =>
    simp only [cleanupGo]
    split <;> simp [ih]

theorem cleanupTempFiles_deletions (env : Env) (st : St) (fs : List String) :
    deletionsOf (cleanupTempFiles env true st fs).2 = fs := by
  simp [cleanupTempFiles, cleanupGo_deletions]

end CleanupLemmas

section StLemmas

@[simp] theorem St.bumpChk_chk (st : St) : st.bumpChk.chk = st.chk + 1 := rfl

@[simp] theorem St.bumpChk_wr (st : St) : st.bumpChk.wr = st.wr := rfl

@[simp] theorem St.bumpChk_ex (st : St) : st.bumpChk.ex = st.ex := rfl

@[simp] theorem St.bumpChk_rd (st : St) : st.bumpChk.rd = st.rd := rfl

@[simp] theorem St.bumpChk_del (st : St) : st.bumpChk.del = st.del := rfl

@[simp] theorem St.bumpWr_chk (st : St) : st.bumpWr.chk = st.chk := rfl

@[simp] theorem St.bumpWr_wr (st : St) : st.bumpWr.wr = st.wr + 1 := rfl

@[simp] theorem St.bumpWr_ex (st : St) : st.bumpWr.ex = st.ex := rfl

@[simp] theorem St.bumpWr_rd (st : St) : st.bumpWr.rd = st.rd := rfl

@[simp] theorem St.bumpWr_del (st : St) : st.bumpWr.del = st.del := rfl

@[simp] theorem St.bumpEx_chk (st : St) : st.bumpEx.chk = st.chk := rfl

@[simp] theorem St.bumpEx_wr (st : St) : st.bumpEx.wr = st.wr := rfl

@[simp] theorem St.bumpEx_ex (st : St) : st.bumpEx.ex = st.ex + 1 := rfl

@[simp] theorem St.bumpEx_rd (st : St) : st.bumpEx.rd = st.rd := rfl

@[simp] theorem St.bumpEx_del (st : St) : st.bumpEx.del = st.del := rfl

@[simp] theorem St.bumpRd_chk (st : St) : st.bumpRd.chk = st.chk := rfl

@[simp] theorem St.bumpRd_wr (st : St) : st.bumpRd.wr = st.wr := rfl

@[simp] theorem St.bumpRd_ex (st : St) : st.bumpRd.ex = st.ex := rfl

@[simp] theorem St.bumpRd_rd (st : St) : st.bumpRd.rd = st.rd + 1 := rfl

@[simp] theorem St.bumpRd_del (st : St) : st.bumpRd.del = st.del := rfl

@[simp] theorem St.bumpDel_chk (st : St) : st.bumpDel.chk = st.chk := rfl

@[simp] theorem St.bumpDel_wr (st : St) : st.bumpDel.wr = st.wr := rfl

@[simp] theorem St.bumpDel_ex (st : St) : st.bumpDel.ex = st.ex := rfl

@[simp] theorem St.bumpDel_rd (st : St) : st.bumpDel.rd = st.rd := rfl

@[simp] theorem St.bumpDel_del (st : St) : st.bumpDel.del = st.del + 1 := rfl

end StLemmas

section ExtractionLemmas

theorem registeredOf_map_write (f : Nat → String) (l : List Nat) :
    registeredOf (l.map fun j => Event.writeFile (f j)) = l.map f := by
  induction l with
  | nil => rfl
  | cons a l ih => simp [ih]

theorem runFrame_nc (env : Env) (hnc : ∀ k, env.cancel k = false) (st : St) (j : Nat) :
    runFrame env st j =
      (st.bumpChk.bumpChk.bumpWr,
        if env.writeOk st.wr then [Event.writeFile (frameName j)] else []) := by
  simp only [runFrame, hnc, Bool.false_eq_true, if_false, St.bumpChk_wr]
  split <;> rfl

theorem runBatch_range (env : Env) (hnc : ∀ k, env.cancel k = false) (w : Nat) :
    ∀ (n a : Nat) (st : St), st.wr = w + a →
      ∃ st', runBatch env st (List.range' a n) = (st',
          ((List.range' a n).filter (fun j => env.writeOk (w + j))).map
            (fun j => Event.writeFile (frameName j))) ∧
        st'.wr = w + a + n ∧ st'.ex = st.ex ∧ st'.rd = st.rd ∧ st'.del = st.del := by
  intro n
  induction n with
  | zero =>
    intro a st hst
    exact ⟨st, by simp [runBatch], by omega, rfl, rfl, rfl⟩
  | succ n ih =>
    intro a st hst
    rw [List.range'_succ]
    have hfr := runFrame_nc env hnc st a
    have hst1 : (st.bumpChk.bumpChk.bumpWr).wr = w + (a + 1) := by simp; omega
    obtain ⟨st', hrb, hwr, hex, hrd, hdel⟩ := ih (a + 1) st.bumpChk.bumpChk.bumpWr hst1
    refine ⟨st', ?_, by omega, by simpa using hex, by simpa using hrd, by simpa using hdel⟩
    simp only [runBatch, hfr, hrb]
    rw [List.filter_cons]
    rcases h : env.writeOk (w + a) with _ | _
    · have : env.writeOk st.wr = false := by rw [hst]; exact h
      simp [this, h]
    · have : env.writeOk st.wr = true := by rw [hst]; exact h
      simp [this, h]

theorem batchEnds_neg {N i : Nat} (h : ¬ i < N) : batchEnds N i = [] := by
  rw [batchEnds]
  simp [h]

theorem batchEnds_pos {N i : Nat} (h : i < N) :
    batchEnds N i = min (i + 10) N :: batchEnds N (min (i + 10) N) := by
  rw [batchEnds]
  simp [h]

theorem batchEnds_mem (N : Nat) :
    ∀ (d i : Nat), N - i ≤ d → ∀ e ∈ batchEnds N i, i < e ∧ e ≤ N := by
  intro d
  induction d with
  | zero =>
    intro i hd e he
    rw [batchEnds_neg (by omega)] at he
    simp at he
  | succ d ih =>
    intro i hd e he
    by_cases h : i < N
    · rw [batchEnds_pos h] at he
      rw [List.mem_cons] at he
      rcases he with he | he
      · omega
      · have := ih (min (i + 10) N) (by omega) e he
        omega
    · rw [batchEnds_neg h] at he
      simp at he

theorem batchEnds_chain (N : Nat) :
    ∀ (d i : Nat), N - i ≤ d → List.Chain' (· ≤ ·) (batchEnds N i) := by
  intro d
  induction d with
  | zero =>
    intro i hd
    rw [batchEnds_neg (by omega)]
    exact List.chain'_nil
  | succ d ih =>
    intro i hd
    by_cases h : i < N
    · rw [batchEnds_pos h]
      rw [List.chain'_cons']
      constructor
      · intro b hb
        have hbm := List.mem_of_mem_head? hb
        have := batchEnds_mem N d (min (i + 10) N) (by omega) b hbm
        omega
      · exact ih (min (i + 10) N) (by omega)
    · rw [batchEnds_neg h]
      exact List.chain'_nil

theorem batchEnds_closed (N : Nat) :
    ∀ (d i : Nat), N - i ≤ d →
      batchEnds N i = (List.range ((N - i + 9) / 10)).map (fun k => min (i + 10 * (k + 1)) N) := by
  intro d
  induction d with
  | zero =>
    intro i hd
    rw [batchEnds_neg (by omega)]
    have : (N - i + 9) / 10 = 0 := by omega
    simp [this]
  | succ d ih =>
    intro i hd
    by_cases h : i < N
    · rw [batchEnds_pos h]
      by_cases hA : N ≤ i + 10
      · have he : min (i + 10) N = N := by omega
        rw [he, batchEnds_neg (by omega)]
        have h1 : (N - i + 9) / 10 = 1 := by omega
        rw [h1]
        have : List.range 1 = [0] := rfl
        simp [this]
        omega
      · have he : min (i + 10) N = i + 10 := by omega
        rw [he, ih (i + 10) (by omega)]
        have h1 : (N - i + 9) / 10 = (N - (i + 10) + 9) / 10 + 1 := by omega
        rw [h1, List.range_succ_eq_map]
        rw [List.map_cons, List.map_map]
        congr 1
        · omega
        · apply List.map_congr_left
          intro k _
          simp only [Function.comp]
          congr 1
          omega
    · rw [batchEnds_neg h]
      have : (N - i + 9) / 10 = 0 := by omega
      simp [this]

theorem registeredOf_map_write_self (f : Nat → String) (l : List Nat) :
    execsOf (l.map fun j => Event.writeFile (f j)) = [] ∧
    deletionsOf (l.map fun j => Event.writeFile (f j)) = [] ∧
    progressesOf (l.map fun j => Event.writeFile (f j)) = [] := by
  induction l with
  | nil => exact ⟨rfl, rfl, rfl⟩
  | cons a l ih => simpa using ih

theorem extractLoop_nc (env : Env) (N : Nat) (hnc : ∀ k, env.cancel k = false) (w : Nat) :
    ∀ (d i : Nat) (st : St), N - i ≤ d → st.wr = w + i →
      ∃ st' ev, extractLoop env N d st i = (st', ev, .ok ()) ∧
        st'.wr = w + max i N ∧ st'.ex = st.ex ∧ st'.rd = st.rd ∧ st'.del = st.del ∧
        registeredOf ev =
          ((List.range' i (N - i)).filter (fun j => env.writeOk (w + j))).map frameName ∧
        execsOf ev = [] ∧ deletionsOf ev = [] ∧
        progressesOf ev = (batchEnds N i).map (extractProgress N) := by
  intro d
  induction d with
  | zero =>
    intro i st hd hst
    have h : ¬ i < N := by omega
    refine ⟨st, [], rfl, by omega, rfl, rfl, rfl, ?_, rfl, rfl, ?_⟩
    · have : N - i = 0 := by omega
      simp [this]
    · rw [batchEnds_neg h]
      simp
  | succ d ih =>
    intro i st hd hst
    by_cases h : i < N
    · rw [extractLoop]
      simp only [h, if_true, hnc, if_false, Bool.false_eq_true]
      set e := min (i + 10) N with he
      have hst1 : (st.bumpChk).wr = w + i := by simpa using hst
      obtain ⟨st2, hrb, hwr2, hex2, hrd2, hdel2⟩ :=
        runBatch_range env hnc w (e - i) i st.bumpChk hst1
      obtain ⟨hbe, hbd, hbp⟩ :=
        registeredOf_map_write_self frameName
          ((List.range' i (e - i)).filter (fun j => env.writeOk (w + j)))
      have hrange : i + (e - i) = e := by omega
      obtain ⟨st', ev4, hloop, hwr', hex', hrd', hdel', hreg', hexec', hdele', hprog'⟩ :=
        ih e st2 (by omega) (by omega)
      rw [hrb]
      simp only [hloop]
      refine ⟨st', _, rfl, ?_, by rw [hex']; simpa using hex2,
        by rw [hrd']; simpa using hrd2, by rw [hdel']; simpa using hdel2, ?_, ?_, ?_, ?_⟩
      · rw [hwr']
        omega
      · simp only [registeredOf_append, hreg', registeredOf_map_write,
          registeredOf_cons_progress, registeredOf_cons_log, registeredOf_nil, List.append_nil]
        rw [← List.map_append, ← List.filter_append]
        congr 2
        have harr := List.range'_append i (e - i) (N - e) 1
        simp only [one_mul, hrange] at harr
        rw [harr]
        congr 1
        omega
      · simp only [execsOf_append, hexec', hbe, execsOf_cons_progress, execsOf_cons_log,
          execsOf_nil, List.append_nil]
      · simp only [deletionsOf_append, hdele', hbd, deletionsOf_cons_progress,
          deletionsOf_cons_log, deletionsOf_nil, List.append_nil]
      · simp only [progressesOf_append, hprog', hbp, progressesOf_cons_progress,
          progressesOf_cons_log, progressesOf_nil, List.nil_append]
        rw [batchEnds_pos h]
        simp only [List.map_cons, ← he, List.singleton_append]
    · rw [extractLoop]
      simp only [h, if_false]
      refine ⟨st, [], rfl, by omega, rfl, rfl, rfl, ?_, rfl, rfl, ?_⟩
      · have : N - i = 0 := by omega
        simp [this]
      · rw [batchEnds_neg h]
        simp

end ExtractionLemmas

section PathLemmas

theorem projections_map_progress (g : ℚ → Int) (l : List ℚ) :
    registeredOf (l.map fun p => Event.progress (g p)) = [] ∧
    execsOf (l.map fun p => Event.progress (g p)) = [] ∧
    deletionsOf (l.map fun p => Event.progress (g p)) = [] ∧
    progressesOf (l.map fun p => Event.progress (g p)) = l.map g := by
  induction l with
  | nil => exact ⟨rfl, rfl, rfl, rfl⟩
  | cons a l ih => simpa using ih

theorem animPath_nc (env : Env) (file : MFile) (fmt : String) (st : St)
    (hnc : ∀ k, env.cancel k = false) (hex : ∀ k, env.execOk k = true)
    (hrd : ∀ k, env.readOk k = true) (hav : env.ffmpegAvailable = true) :
    (animPath file fmt env st).2.2.1 = .ok { mime := "video/" ++ fmt } ∧
    (animPath file fmt env st).2.2.2 = (List.range env.frames).map frameName ∧
    registeredOf (animPath file fmt env st).2.1 =
      ((List.range env.frames).filter (fun j => env.writeOk (st.wr + j))).map frameName ∧
    execsOf (animPath file fmt env st).2.1 = [animArgs fmt] ∧
    deletionsOf (animPath file fmt env st).2.1 =
      (List.range env.frames).map frameName ++ ["output." ++ fmt, "palette.png"] ∧
    progressesOf (animPath file fmt env st).2.1 =
      (batchEnds env.frames 0).map (extractProgress env.frames)
        ++ (env.execProgress st.ex).map encodeProgress := by
  obtain ⟨stL, evL, hloop, hwrL, hexL, hrdL, hdelL, hregL, hexecL, hdelsL, hprogL⟩ :=
    extractLoop_nc env env.frames hnc st.wr env.frames 0 st.bumpChk (by omega) (by simp)
  rw [Nat.sub_zero, ← List.range_eq_range'] at hregL
  have hexL' : stL.ex = st.ex := by simpa using hexL
  have hrdL' : stL.rd = st.rd := by simpa using hrdL
  obtain ⟨hpr, hpe, hpd, hpp⟩ :=
    projections_map_progress encodeProgress (env.execProgress st.ex)
  simp only [animPath, hnc, Bool.false_eq_true, if_false, hloop, doExec, cleanupTempFiles,
    hav, if_true, hex, hrd, Bool.not_true, hexL']
  refine ⟨trivial, trivial, ?_, ?_, ?_, ?_⟩
  · simp [hregL, cleanupGo_registered, hexL', hpr]
  · simp [hexecL, cleanupGo_execs, hexL', hpe]
  · simp [hdelsL, cleanupGo_deletions, hexL', hpd]
  · simp [hprogL, cleanupGo_progresses, hexL', hpp]

theorem genericTail_nc (env : Env) (fmt : String) (tv : Bool) (inp out : String)
    (args : List String) (st : St)
    (hnc : ∀ k, env.cancel k = false) (hex : ∀ k, env.execOk k = true)
    (hrd : ∀ k, env.readOk k = true) (hav : env.ffmpegAvailable = true) :
    (genericTail env fmt tv inp out args st).2.2 =
      .ok { mime := (if tv then "video/" else "image/") ++ fmt } ∧
    registeredOf (genericTail env fmt tv inp out args st).2.1 = [] ∧
    execsOf (genericTail env fmt tv inp out args st).2.1 = [args] ∧
    deletionsOf (genericTail env fmt tv inp out args st).2.1 = [inp, out, "palette.png"] ∧
    progressesOf (genericTail env fmt tv inp out args st).2.1 =
      (env.execProgress st.ex).map genProgress := by
  obtain ⟨hpr, hpe, hpd, hpp⟩ := projections_map_progress genProgress (env.execProgress st.ex)
  simp only [genericTail, doExec, hex, hnc, hrd, cleanupTempFiles, hav, if_true,
    Bool.not_true, Bool.false_eq_true, if_false]
  refine ⟨trivial, ?_, ?_, ?_, ?_⟩
  · simp [cleanupGo_registered, hpr]
  · simp [cleanupGo_execs, hpe]
  · simp [cleanupGo_deletions, hpd]
  · simp [cleanupGo_progresses, hpp]

theorem genericPath_nc_nogif (env : Env) (file : MFile) (fmt : String) (iv ia tv ta : Bool)
    (st : St)
    (hnc : ∀ k, env.cancel k = false) (hw : ∀ k, env.writeOk k = true)
    (hex : ∀ k, env.execOk k = true) (hrd : ∀ k, env.readOk k = true)
    (hav : env.ffmpegAvailable = true)
    (hgif : (iv && jsToLower fmt == "gif") = false) :
    (genericPath file fmt env iv ia tv ta st).2.2 =
      .ok { mime := (if tv then "video/" else "image/") ++ fmt } ∧
    registeredOf (genericPath file fmt env iv ia tv ta st).2.1 = ["input_" ++ file.name] ∧
    execsOf (genericPath file fmt env iv ia tv ta st).2.1 =
      [scenarioArgs iv ia tv ta ("input_" ++ file.name) ("output." ++ fmt) fmt] ∧
    deletionsOf (genericPath file fmt env iv ia tv ta st).2.1 =
      ["input_" ++ file.name, "output." ++ fmt, "palette.png"] ∧
    progressesOf (genericPath file fmt env iv ia tv ta st).2.1 =
      (env.execProgress st.ex).map genProgress := by
  obtain ⟨hT1, hT2, hT3, hT4, hT5⟩ := genericTail_nc env fmt tv ("input_" ++ file.name)
    ("output." ++ fmt) (scenarioArgs iv ia tv ta ("input_" ++ file.name) ("output." ++ fmt) fmt)
    st.bumpWr.bumpChk hnc hex hrd hav
  simp only [genericPath, hw, hnc, hgif, Bool.not_true, Bool.false_eq_true, if_false]
  refine ⟨by simpa using hT1, ?_, ?_, ?_, ?_⟩
  · rcases h : (!iv && !ia && tv) with _ | _ <;> simp [h, hT2]
  · rcases h : (!iv && !ia && tv) with _ | _ <;> simp [h, hT3]
  · rcases h : (!iv && !ia && tv) with _ | _ <;> simp [h, hT4]
  · rcases h : (!iv && !ia && tv) with _ | _ <;> simp [h, hT5]

theorem genericPath_nc_gif (env : Env) (file : MFile) (fmt : String) (ia tv ta : Bool)
    (st : St)
    (hnc : ∀ k, env.cancel k = false) (hw : ∀ k, env.writeOk k = true)
    (hex : ∀ k, env.execOk k = true) (hrd : ∀ k, env.readOk k = true)
    (hav : env.ffmpegAvailable = true)
    (hgif : jsToLower fmt = "gif") :
    (genericPath file fmt env true ia tv ta st).2.2 =
      .ok { mime := (if tv then "video/" else "image/") ++ fmt } ∧
    registeredOf (genericPath file fmt env true ia tv ta st).2.1 = ["input_" ++ file.name] ∧
    execsOf (genericPath file fmt env true ia tv ta st).2.1 =
      [paletteGenArgs ("input_" ++ file.name),
       paletteUseArgs ("input_" ++ file.name) ("output." ++ fmt)] ∧
    deletionsOf (genericPath file fmt env true ia tv ta st).2.1 =
      ["input_" ++ file.name, "output." ++ fmt, "palette.png"] := by
  obtain ⟨hT1, hT2, hT3, hT4, hT5⟩ := genericTail_nc env fmt tv ("input_" ++ file.name)
    ("output." ++ fmt) (paletteUseArgs ("input_" ++ file.name) ("output." ++ fmt))
    st.bumpWr.bumpChk.bumpEx hnc hex hrd hav
  obtain ⟨hpr, hpe, hpd, hpp⟩ := projections_map_progress genProgress
    (env.execProgress st.ex)
  have hg : (true && jsToLower fmt == "gif") = true := by simp [hgif]
  simp only [genericPath, hw, hnc, hg, Bool.not_true, Bool.false_eq_true, if_false, if_true,
    doExec, hex]
  refine ⟨by simpa using hT1, ?_, ?_, ?_⟩
  · simp [hT2, hpr]
  · simp [hT3, hpe]
  · simp [hT4, hpd]

theorem magick_trace (file : MFile) (fmt : String) (env : Env) (st : St) :
    engineEventsOf (convertWithImageMagick file fmt env st).2.1 = [] ∧
    registeredOf (convertWithImageMagick file fmt env st).2.1 = [] ∧
    execsOf (convertWithImageMagick file fmt env st).2.1 = [] ∧
    deletionsOf (convertWithImageMagick file fmt env st).2.1 = [] := by
  unfold convertWithImageMagick
  split <;> (dsimp only; split_ifs <;> simp)

theorem magick_ok_mime (file : MFile) (fmt : String) (env : Env) (st : St) (b : Blob) :
    (convertWithImageMagick file fmt env st).2.2 = .ok b → b.mime = "image/" ++ fmt := by
  unfold convertWithImageMagick
  split <;> (dsimp only; split_ifs <;> intro h <;> first
    | exact h.elim
    | (injection h with h; rw [← h]))

theorem magick_no_ftl (file : MFile) (fmt : String) (env : Env) (st : St) :
    (convertWithImageMagick file fmt env st).2.2 ≠ .error .fileTooLarge := by
  unfold convertWithImageMagick
  split <;> (dsimp only; split_ifs <;> simp)

theorem extractLoop_error_cancelled (env : Env) (N : Nat) :
    ∀ (d i : Nat) (st : St), ∀ e,
      (extractLoop env N d st i).2.2 = .error e → e = .cancelled := by
  intro d
  induction d with
  | zero =>
    intro i st e he
    simp [extractLoop] at he
  | succ d ih =>
    intro i st e he
    rw [extractLoop] at he
    by_cases h : i < N
    · simp only [h, if_true] at he
      split at he
      · simpa using he.symm
      · exact ih _ _ e he
    · simp only [h, if_false] at he
      simp at he

theorem genericTail_no_ftl (env : Env) (fmt : String) (tv : Bool) (inp out : String)
    (args : List String) (st : St) :
    (genericTail env fmt tv inp out args st).2.2 ≠ .error .fileTooLarge := by
  simp only [genericTail]
  repeat' split
  all_goals simp

theorem genericTail_ok_mime (env : Env) (fmt : String) (tv : Bool) (inp out : String)
    (args : List String) (st : St) (b : Blob) :
    (genericTail env fmt tv inp out args st).2.2 = .ok b →
      b.mime = (if tv then "video/" else "image/") ++ fmt := by
  simp only [genericTail]
  repeat' split
  all_goals intro h
  all_goals first
    | (injection h; done)
    | (injection h with h2; rw [← h2])

theorem genericPath_no_ftl (env : Env) (file : MFile) (fmt : String) (iv ia tv ta : Bool)
    (st : St) :
    (genericPath file fmt env iv ia tv ta st).2.2 ≠ .error .fileTooLarge := by
  simp only [genericPath]
  repeat' split
  all_goals first
    | apply genericTail_no_ftl
    | simp

theorem genericPath_ok_mime (env : Env) (file : MFile) (fmt : String) (iv ia tv ta : Bool)
    (st : St) (b : Blob) :
    (genericPath file fmt env iv ia tv ta st).2.2 = .ok b →
      b.mime = (if tv then "video/" else "image/") ++ fmt := by
  simp only [genericPath]
  repeat' split
  all_goals intro h
  all_goals first
    | injection h
    | (have h3 := genericTail_ok_mime _ _ _ _ _ _ _ _ h; simp_all)

theorem animPath_no_ftl (env : Env) (file : MFile) (fmt : String) (st : St) :
    (animPath file fmt env st).2.2.1 ≠ .error .fileTooLarge := by
  simp only [animPath]
  repeat' split
  all_goals first
    | (rename_i e he
       have hce := extractLoop_error_cancelled env env.frames env.frames 0 st.bumpChk e he
       subst hce
       simp)
    | simp

theorem animPath_ok_mime (env : Env) (file : MFile) (fmt : String) (st : St) (b : Blob) :
    (animPath file fmt env st).2.2.1 = .ok b → b.mime = "video/" ++ fmt := by
  simp only [animPath]
  repeat' split
  all_goals intro h
  all_goals first
    | (injection h; done)
    | (injection h with h2; rw [← h2])

theorem ffmpeg_no_ftl (env : Env) (file : MFile) (fmt : String) (iv ia tv ta : Bool)
    (st : St) :
    (convertWithFFmpeg file fmt env iv ia tv ta st).2.2 ≠ .error .fileTooLarge := by
  simp only [convertWithFFmpeg]
  split
  · simp
  · split
    · simp
    · rename_i e he
      intro hc
      simp only [Except.error.injEq] at hc
      subst hc
      split at he
      · exact animPath_no_ftl env file fmt st he
      · exact genericPath_no_ftl env file fmt iv ia tv ta st he

theorem ffmpeg_ok_mime (env : Env) (file : MFile) (fmt : String) (iv ia tv ta : Bool)
    (st : St) (b : Blob) :
    (convertWithFFmpeg file fmt env iv ia tv ta st).2.2 = .ok b →
      b.mime = (if tv then "video/" else "image/") ++ fmt := by
  simp only [convertWithFFmpeg]
  split
  · intro h
    injection h
  · split
    · rename_i b' hb
      intro h
      have h2 : b' = b := by simpa using h
      subst h2
      split at hb
      · rename_i hcond
        have htv : tv = true := by
          simp only [Bool.and_eq_true] at hcond
          exact hcond.2
        have := animPath_ok_mime env file fmt st b' hb
        rw [htv, if_pos rfl]
        exact this
      · exact genericPath_ok_mime env file fmt iv ia tv ta st b' hb
    · intro h
      injection h

section TopLemmas

theorem core_ftl_iff (file : MFile) (fmt : String) (env : Env) :
    ((convertMediaCore file fmt env St.init).2.2 = .error .fileTooLarge) ↔
      100 * 1024 * 1024 < file.size := by
  constructor
  · intro h
    simp only [convertMediaCore] at h
    split at h
    · rename_i hs
      omega
    · split at h
      · exact absurd h (magick_no_ftl _ _ _ _)
      · exact absurd h (ffmpeg_no_ftl _ _ _ _ _ _ _ _)
  · intro hs
    simp only [convertMediaCore]
    split
    · rfl
    · rename_i hns
      omega

theorem convertMedia_too_large (pre : Bool) (file : MFile) (fmt : String) (env : Env)
    (hs : 100 * 1024 * 1024 < file.size) :
    convertMedia pre file fmt env =
      (St.init, [Event.log ("Conversion error: " ++ describeErr .fileTooLarge)],
        .error .fileTooLarge) := by
  have hK : convertMediaCore file fmt env St.init = (St.init, [], .error .fileTooLarge) := by
    simp only [convertMediaCore]
    split
    · rfl
    · rename_i hns
      omega
  unfold convertMedia
  rw [hK]
  rfl

theorem wrapper_ftl (pre : Bool) (file : MFile) (fmt : String) (env : Env) :
    resultOf (convertMedia pre file fmt env) = .error .fileTooLarge ↔
      (convertMediaCore file fmt env St.init).2.2 = .error .fileTooLarge := by
  unfold convertMedia resultOf
  rcases hK : (convertMediaCore file fmt env St.init).2.2 with e | b
  · cases e <;> simp [hK] <;> (try split) <;> simp_all
  · simp [hK]

theorem convertMedia_ftl_iff (pre : Bool) (file : MFile) (fmt : String) (env : Env) :
    resultOf (convertMedia pre file fmt env) = .error .fileTooLarge ↔
      100 * 1024 * 1024 < file.size :=
  (wrapper_ftl pre file fmt env).trans (core_ftl_iff file fmt env)

theorem core_ok_mime (file : MFile) (fmt : String) (env : Env) (b : Blob) :
    (convertMediaCore file fmt env St.init).2.2 = .ok b →
      b.mime = (if isVideoFormat fmt then "video/" else "image/") ++ fmt := by
  simp only [convertMediaCore]
  split
  · intro h
    injection h
  · split
    · rename_i hroute
      intro h
      have hb := magick_ok_mime file fmt env St.init b h
      have htv : isVideoFormat fmt = false := by
        simp only [Bool.and_eq_true, Bool.not_eq_true'] at hroute
        exact hroute.1.1.2
      rw [htv]
      simpa using hb
    · intro h
      exact ffmpeg_ok_mime env file fmt _ _ _ _ St.init b h

theorem convertMedia_ok_mime (pre : Bool) (file : MFile) (fmt : String) (env : Env)
    (b : Blob) :
    resultOf (convertMedia pre file fmt env) = .ok b →
      b.mime = (if isVideoFormat fmt then "video/" else "image/") ++ fmt := by
  unfold convertMedia resultOf
  rcases hK : (convertMediaCore file fmt env St.init).2.2 with e | b'
  · cases e <;> simp [hK] <;> (try split) <;> simp_all
  · intro h
    have hb : b' = b := by simpa [hK] using h
    subst hb
    exact core_ok_mime file fmt env b' hK

theorem cleanupTempFiles_fst (env : Env) (avail : Bool) (st : St) (fs : List String) :
    (cleanupTempFiles env avail st fs).1 =
      if avail then { st with del := st.del + fs.length } else st := by
  unfold cleanupTempFiles
  split <;> simp [cleanupGo_fst]

theorem runFrame_agree {e1 e2 : Env} (h : EnvAgree e1 e2) (st : St) (j : Nat) :
    runFrame e1 st j = runFrame e2 st j := by
  obtain ⟨_, hc, hw, _, _, _, _⟩ := h
  simp [runFrame, hc, hw]

theorem runBatch_agree {e1 e2 : Env} (h : EnvAgree e1 e2) :
    ∀ (js : List Nat) (st : St), runBatch e1 st js = runBatch e2 st js := by
  intro js
  induction js with
  | nil => intro st; rfl
  | cons j js ih =>
    intro st
    simp only [runBatch, runFrame_agree h, ih]

theorem extractLoop_agree {e1 e2 : Env} (h : EnvAgree e1 e2) (N : Nat) :
    ∀ (d i : Nat) (st : St), extractLoop e1 N d st i = extractLoop e2 N d st i := by
  intro d
  induction d with
  | zero =>
    intro i st
    rfl
  | succ d ih =>
    intro i st
    rw [extractLoop, extractLoop]
    by_cases hn : i < N
    · simp only [hn, if_true, h.2.1, runBatch_agree h]
      rw [ih]
    · simp [hn]

theorem magick_agree {e1 e2 : Env} (h : EnvAgree e1 e2) (file : MFile) (fmt : String)
    (st : St) :
    convertWithImageMagick file fmt e1 st = convertWithImageMagick file fmt e2 st := by
  simp only [convertWithImageMagick, h.2.1]

theorem animPath_agree {e1 e2 : Env} (h : EnvAgree e1 e2) (file : MFile) (fmt : String)
    (st : St) :
    (animPath file fmt e1 st).1 = (animPath file fmt e2 st).1 ∧
    (animPath file fmt e1 st).2.2 = (animPath file fmt e2 st).2.2 := by
  obtain ⟨hav, hc, hw, hx, hr, hp, hf⟩ := h
  simp only [animPath, doExec, hav, hc, hx, hr, hp, hf,
    extractLoop_agree ⟨hav, hc, hw, hx, hr, hp, hf⟩ e2.frames e2.frames 0 _]
  split
  · exact ⟨rfl, rfl⟩
  · split
    · exact ⟨rfl, rfl⟩
    · split
      · simp [cleanupTempFiles_fst]
      · split
        · exact ⟨rfl, rfl⟩
        · split
          · simp [cleanupTempFiles_fst]
          · split
            · exact ⟨rfl, rfl⟩
            · simp [cleanupTempFiles_fst]

theorem genericTail_agree {e1 e2 : Env} (h : EnvAgree e1 e2) (fmt : String) (tv : Bool)
    (inp out : String) (args : List String) (st : St) :
    (genericTail e1 fmt tv inp out args st).1 = (genericTail e2 fmt tv inp out args st).1 ∧
    (genericTail e1 fmt tv inp out args st).2.2 =
      (genericTail e2 fmt tv inp out args st).2.2 := by
  obtain ⟨hav, hc, hw, hx, hr, hp, hf⟩ := h
  simp only [genericTail, doExec, hav, hc, hx, hr, hp]
  split
  · split
    · exact ⟨rfl, rfl⟩
    · exact ⟨rfl, rfl⟩
  · split
    · exact ⟨rfl, rfl⟩
    · split
      · exact ⟨rfl, rfl⟩
      · simp [cleanupTempFiles_fst]

theorem genericPath_agree {e1 e2 : Env} (h : EnvAgree e1 e2) (file : MFile) (fmt : String)
    (iv ia tv ta : Bool) (st : St) :
    (genericPath file fmt e1 iv ia tv ta st).1 = (genericPath file fmt e2 iv ia tv ta st).1 ∧
    (genericPath file fmt e1 iv ia tv ta st).2.2 =
      (genericPath file fmt e2 iv ia tv ta st).2.2 := by
  have hG := genericTail_agree h
  obtain ⟨hav, hc, hw, hx, hr, hp, hf⟩ := h
  simp only [genericPath, doExec, hav, hc, hw, hx, hr, hp]
  split
  · exact ⟨rfl, rfl⟩
  · split
    · simp [cleanupTempFiles_fst]
    · split
      · split
        · exact ⟨rfl, rfl⟩
        · exact ⟨(hG fmt tv _ _ _ _).1, (hG fmt tv _ _ _ _).2⟩
      · exact ⟨(hG fmt tv _ _ _ _).1, (hG fmt tv _ _ _ _).2⟩

theorem ffmpeg_agree {e1 e2 : Env} (h : EnvAgree e1 e2) (file : MFile) (fmt : String)
    (iv ia tv ta : Bool) (st : St) :
    (convertWithFFmpeg file fmt e1 iv ia tv ta st).1 =
      (convertWithFFmpeg file fmt e2 iv ia tv ta st).1 ∧
    (convertWithFFmpeg file fmt e1 iv ia tv ta st).2.2 =
      (convertWithFFmpeg file fmt e2 iv ia tv ta st).2.2 := by
  have hA := animPath_agree h file fmt st
  have hG := genericPath_agree h file fmt iv ia tv ta st
  have h21 : (animPath file fmt e1 st).2.2.1 = (animPath file fmt e2 st).2.2.1 :=
    congrArg Prod.fst hA.2
  have h22 : (animPath file fmt e1 st).2.2.2 = (animPath file fmt e2 st).2.2.2 :=
    congrArg Prod.snd hA.2
  obtain ⟨hav, hc, hw, hx, hr, hp, hf⟩ := h
  simp only [convertWithFFmpeg, hav]
  split
  · exact ⟨rfl, rfl⟩
  · by_cases hweb : (file.mime == "image/webp" && tv) = true
    · simp only [hweb, if_true]
      rw [h21, h22, hA.1]
      rcases hres : (animPath file fmt e2 st).2.2.1 with e | b
      · simp [cleanupTempFiles_fst]
      · exact ⟨rfl, rfl⟩
    · simp only [hweb, if_false, Bool.false_eq_true]
      rw [hG.1, hG.2]
      rcases hres : (genericPath file fmt e2 iv ia tv ta st).2.2 with e | b
      · simp [cleanupTempFiles_fst]
      · exact ⟨rfl, rfl⟩

theorem core_agree {e1 e2 : Env} (h : EnvAgree e1 e2) (file : MFile) (fmt : String) :
    (convertMediaCore file fmt e1 St.init).1 = (convertMediaCore file fmt e2 St.init).1 ∧
    (convertMediaCore file fmt e1 St.init).2.2 =
      (convertMediaCore file fmt e2 St.init).2.2 := by
  simp only [convertMediaCore]
  split
  · exact ⟨rfl, rfl⟩
  · split
    · rw [magick_agree h]
      exact ⟨rfl, rfl⟩
    · exact ffmpeg_agree h file fmt _ _ _ _ St.init

theorem convertMedia_agree {e1 e2 : Env} (h : EnvAgree e1 e2) (pre : Bool) (file : MFile)
    (fmt : String) :
    resultOf (convertMedia pre file fmt e1) = resultOf (convertMedia pre file fmt e2) := by
  obtain ⟨h1, h2⟩ := core_agree h file fmt
  simp only [convertMedia, resultOf]
  rw [h2, h1, h.2.1]
  rcases hres : (convertMediaCore file fmt e2 St.init).2.2 with e | b
  · cases e <;> simp [hres] <;> (try split) <;> simp_all
  · simp [hres]

theorem wrapper_ok (pre : Bool) (file : MFile) (fmt : String) (env : Env)
    (x : St × List Event × Except ConvError Blob)
    (hx : convertMediaCore file fmt env St.init = x) (b : Blob) (hb : x.2.2 = .ok b) :
    convertMedia pre file fmt env = (x.1, x.2.1, .ok b) := by
  simp only [convertMedia, hx]
  rcases x with ⟨s, ev, r⟩
  simp only at hb
  subst hb
  rfl

theorem core_to_ffmpeg (file : MFile) (fmt : String) (env : Env)
    (hsz : ¬ 100 * 1024 * 1024 < file.size)
    (hroute : ((!jsStartsWith file.mime "video/" && !jsStartsWith file.mime "audio/" &&
        !isVideoFormat fmt && !isAudioFormat fmt) &&
        (!jsIncludes file.mime "webp" || jsToLower fmt == "png")) = false) :
    convertMediaCore file fmt env St.init =
      convertWithFFmpeg file fmt env (jsStartsWith file.mime "video/")
        (jsStartsWith file.mime "audio/") (isVideoFormat fmt) (isAudioFormat fmt) St.init := by
  simp only [convertMediaCore, hroute]
  rw [if_neg (by omega)]
  simp

theorem core_to_magick (file : MFile) (fmt : String) (env : Env)
    (hsz : ¬ 100 * 1024 * 1024 < file.size)
    (hroute : ((!jsStartsWith file.mime "video/" && !jsStartsWith file.mime "audio/" &&
        !isVideoFormat fmt && !isAudioFormat fmt) &&
        (!jsIncludes file.mime "webp" || jsToLower fmt == "png")) = true) :
    convertMediaCore file fmt env St.init = convertWithImageMagick file fmt env St.init := by
  simp only [convertMediaCore, hroute]
  rw [if_neg (by omega)]
  simp

theorem ffmpeg_to_anim (file : MFile) (fmt : String) (env : Env) (iv ia tv ta : Bool)
    (hav : env.ffmpegAvailable = true)
    (hwebp : (file.mime == "image/webp" && tv) = true) (b : Blob)
    (hok : (animPath file fmt env St.init).2.2.1 = .ok b) :
    convertWithFFmpeg file fmt env iv ia tv ta St.init =
      ((animPath file fmt env St.init).1, (animPath file fmt env St.init).2.1, .ok b) := by
  simp only [convertWithFFmpeg, hav, hwebp, Bool.not_true, Bool.false_eq_true, if_false,
    if_true]
  rw [hok]

theorem ffmpeg_to_generic (file : MFile) (fmt : String) (env : Env) (iv ia tv ta : Bool)
    (hav : env.ffmpegAvailable = true)
    (hwebp : (file.mime == "image/webp" && tv) = false) (b : Blob)
    (hok : (genericPath file fmt env iv ia tv ta St.init).2.2 = .ok b) :
    convertWithFFmpeg file fmt env iv ia tv ta St.init =
      ((genericPath file fmt env iv ia tv ta St.init).1,
        (genericPath file fmt env iv ia tv ta St.init).2.1, .ok b) := by
  simp only [convertWithFFmpeg, hav, hwebp, Bool.not_true, Bool.false_eq_true, if_false]
  rw [hok]

theorem convertMedia_anim (pre : Bool) (env : Env) (name fmt : String) (sz : Nat)
    (hsz : sz ≤ 100 * 1024 * 1024) (htv : isVideoFormat fmt = true)
    (hnc : ∀ k, env.cancel k = false) (hex : ∀ k, env.execOk k = true)
    (hrd : ∀ k, env.readOk k = true) (hav : env.ffmpegAvailable = true) :
    convertMedia pre ⟨name, "image/webp", sz⟩ fmt env =
      ((animPath ⟨name, "image/webp", sz⟩ fmt env St.init).1,
        (animPath ⟨name, "image/webp", sz⟩ fmt env St.init).2.1,
        .ok { mime := "video/" ++ fmt }) := by
  have hres := (animPath_nc env ⟨name, "image/webp", sz⟩ fmt St.init hnc hex hrd hav).1
  have hcore := core_to_ffmpeg ⟨name, "image/webp", sz⟩ fmt env (by simp; omega)
    (by simp [htv])
  have hff := ffmpeg_to_anim ⟨name, "image/webp", sz⟩ fmt env
    (jsStartsWith "image/webp" "video/") (jsStartsWith "image/webp" "audio/")
    (isVideoFormat fmt) (isAudioFormat fmt) hav (by simp [htv]) _ hres
  exact wrapper_ok pre _ fmt env _ (hcore.trans hff) _ rfl

theorem convertMedia_generic (pre : Bool) (env : Env) (file : MFile) (fmt : String)
    (hsz : file.size ≤ 100 * 1024 * 1024)
    (hroute : ((!jsStartsWith file.mime "video/" && !jsStartsWith file.mime "audio/" &&
        !isVideoFormat fmt && !isAudioFormat fmt) &&
        (!jsIncludes file.mime "webp" || jsToLower fmt == "png")) = false)
    (hwebp : (file.mime == "image/webp" && isVideoFormat fmt) = false)
    (hav : env.ffmpegAvailable = true) (b : Blob)
    (hok : (genericPath file fmt env (jsStartsWith file.mime "video/")
        (jsStartsWith file.mime "audio/") (isVideoFormat fmt) (isAudioFormat fmt)
        St.init).2.2 = .ok b) :
    convertMedia pre file fmt env =
      ((genericPath file fmt env (jsStartsWith file.mime "video/")
          (jsStartsWith file.mime "audio/") (isVideoFormat fmt) (isAudioFormat fmt)
          St.init).1,
        (genericPath file fmt env (jsStartsWith file.mime "video/")
          (jsStartsWith file.mime "audio/") (isVideoFormat fmt) (isAudioFormat fmt)
          St.init).2.1, .ok b) := by
  have hcore := core_to_ffmpeg file fmt env (by omega) hroute
  have hff := ffmpeg_to_generic file fmt env (jsStartsWith file.mime "video/")
    (jsStartsWith file.mime "audio/") (isVideoFormat fmt) (isAudioFormat fmt) hav hwebp b hok
  exact wrapper_ok pre file fmt env _ (hcore.trans hff) b rfl

end TopLemmas

end PathLemmas

theorem wrapper_engineEvents (pre : Bool) (file : MFile) (fmt : String) (env : Env) :
    engineEventsOf (traceOf (convertMedia pre file fmt env)) =
      engineEventsOf (convertMediaCore file fmt env St.init).2.1 := by
  simp only [convertMedia, traceOf]
  rcases hK : (convertMediaCore file fmt env St.init).2.2 with e | b
  · cases e <;> simp [hK] <;> (try split) <;> simp_all
  · simp [hK]

theorem magick_nc (file : MFile) (fmt : String) (env : Env) (st : St)
    (hnc : ∀ k, env.cancel k = false) (key : String)
    (hkey : magickFormatMap (jsToLower fmt) = some key) :
    convertWithImageMagick file fmt env st =
      (st.bumpChk.bumpChk.bumpChk,
        [Event.log "Reading image data...", Event.progress 50,
         Event.log ("Converting to format: " ++ key), Event.progress 100],
        .ok { mime := "image/" ++ fmt }) := by
  simp only [convertWithImageMagick, hnc, Bool.false_eq_true, if_false, hkey]
  rfl

section ProgressBounds

theorem extractProgress_nonneg (N e : Nat) : 0 ≤ extractProgress N e := by
  unfold extractProgress
  apply jsRound_nonneg
  positivity

theorem extractProgress_le_40 (N e : Nat) (h : e ≤ N) : extractProgress N e ≤ 40 := by
  unfold extractProgress
  rcases Nat.eq_zero_or_pos N with h0 | hp
  · subst h0
    apply jsRound_le
    norm_num
  · have hN : (0:ℚ) < N := by exact_mod_cast hp
    have he : (e:ℚ) ≤ N := by exact_mod_cast h
    have h1 : (e:ℚ) / N ≤ 1 := (div_le_one hN).mpr he
    apply jsRound_le
    push_cast
    nlinarith

theorem extractProgress_mono (N : Nat) {a b : Nat} (hab : a ≤ b) :
    extractProgress N a ≤ extractProgress N b := by
  unfold extractProgress
  apply jsRound_mono
  rcases Nat.eq_zero_or_pos N with h0 | hp
  · subst h0
    simp
  · have hN : (0:ℚ) < N := by exact_mod_cast hp
    have hab' : (a:ℚ) ≤ b := by exact_mod_cast hab
    have : (a:ℚ) / N ≤ (b:ℚ) / N := by
      apply div_le_div_of_nonneg_right hab' hN.le
    nlinarith

theorem encodeProgress_ge_40 {p : ℚ} (h : 0 ≤ p) : 40 ≤ encodeProgress p := by
  unfold encodeProgress
  have : 0 ≤ jsRound (p * 60) := jsRound_nonneg (by positivity)
  omega

theorem encodeProgress_le_100 {p : ℚ} (h : p ≤ 1) : encodeProgress p ≤ 100 := by
  unfold encodeProgress
  have h60 : p * 60 ≤ ((60 : ℤ) : ℚ) := by push_cast; nlinarith
  have : jsRound (p * 60) ≤ 60 := jsRound_le h60
  omega

theorem encodeProgress_mono {p q : ℚ} (h : p ≤ q) : encodeProgress p ≤ encodeProgress q := by
  unfold encodeProgress
  have : jsRound (p * 60) ≤ jsRound (q * 60) :=
    jsRound_mono (mul_le_mul_of_nonneg_right h (by norm_num))
  omega

end ProgressBounds

theorem wrapper_files (pre : Bool) (file : MFile) (fmt : String) (env : Env) :
    registeredOf (traceOf (convertMedia pre file fmt env)) =
      registeredOf (convertMediaCore file fmt env St.init).2.1 ∧
    deletionsOf (traceOf (convertMedia pre file fmt env)) =
      deletionsOf (convertMediaCore file fmt env St.init).2.1 := by
  simp only [convertMedia, traceOf]
  rcases hK : (convertMediaCore file fmt env St.init).2.2 with e | b
  · cases e <;> simp [hK] <;> (try split) <;> simp_all
  · simp [hK]

section Claims

/-- C4: `convertMedia` fails with the `FileTooLarge` error if and only if the
input file's byte length is strictly greater than 100 MiB
(`100 * 1024 * 1024` bytes); a file of exactly 100 MiB is accepted, and when
the error is raised the whole trace is the single catch-handler log line, so
no engine interaction has occurred and no intermediate resource has been
registered. -/
theorem claim4_size_limit (pre : Bool) (file : MFile) (fmt : String) (env : Env) :
    (resultOf (convertMedia pre file fmt env) = .error .fileTooLarge ↔
      100 * 1024 * 1024 < file.size) ∧
    (100 * 1024 * 1024 < file.size →
      traceOf (convertMedia pre file fmt env) =
        [Event.log "Conversion error: Error: File too large. Maximum size is 100MB."] ∧
      engineEventsOf (traceOf (convertMedia pre file fmt env)) = [] ∧
      registeredOf (traceOf (convertMedia pre file fmt env)) = []) := by
  refine ⟨convertMedia_ftl_iff pre file fmt env, fun hs => ?_⟩
  rw [convertMedia_too_large pre file fmt env hs]
  exact ⟨rfl, rfl, rfl⟩

/-- C4 witness: a 100 MiB + 1 byte file is rejected with `FileTooLarge`
without any registered resource, and a file of exactly 100 MiB is not
rejected with `FileTooLarge`. -/
theorem claim4_witness :
    resultOf (convertMedia false ⟨"big.bin", "video/mp4", 104857601⟩ "png" envAllOk) =
      .error .fileTooLarge ∧
    registeredOf (traceOf (convertMedia false ⟨"big.bin", "video/mp4", 104857601⟩ "png"
      envAllOk)) = [] ∧
    resultOf (convertMedia false ⟨"ok.bin", "video/mp4", 104857600⟩ "png" envAllOk) ≠
      .error .fileTooLarge := by
  refine ⟨?_, ?_, ?_⟩
  · exact (claim4_size_limit false ⟨"big.bin", "video/mp4", 104857601⟩ "png" envAllOk).1.mpr
      (by decide)
  · exact ((claim4_size_limit false ⟨"big.bin", "video/mp4", 104857601⟩ "png" envAllOk).2
      (by decide)).2.2
  · intro h
    exact absurd ((claim4_size_limit false ⟨"ok.bin", "video/mp4", 104857600⟩ "png"
      envAllOk).1.mp h) (by decide)

/-- C9 counterexample: a successful audio-to-audio conversion (`audio/wav`
input, target "mp3") returns bytes tagged `image/mp3`, not `audio/mp3`: the
source tags every non-video success `image/<fmt>`. -/
theorem claim9_counterexample :
    resultOf (convertMedia false ⟨"a.wav", "audio/wav", 5⟩ "mp3" envAllOk) =
      .ok { mime := "image/mp3" } ∧
    ("image/mp3" : String) ≠ "audio/mp3" := by
  exact ⟨rfl, by decide⟩

/-- C9 (amended): every successful conversion returns bytes tagged
`video/<fmt>` when the target format is a video format and `image/<fmt>`
otherwise — including for audio targets, which are tagged `image/<fmt>`
rather than `audio/<fmt>`. -/
theorem claim9_mime_amended (pre : Bool) (file : MFile) (fmt : String) (env : Env) (b : Blob)
    (h : resultOf (convertMedia pre file fmt env) = .ok b) :
    b.mime = (if isVideoFormat fmt then "video/" else "image/") ++ fmt :=
  convertMedia_ok_mime pre file fmt env b h

/-- C9 witness: a video-to-video success is tagged `video/webm`, matching the
amended tagging rule at a concrete input. -/
theorem claim9_witness :
    resultOf (convertMedia false ⟨"a.mp4", "video/mp4", 5⟩ "webm" envAllOk) =
      .ok { mime := "video/webm" } ∧
    (Blob.mk "video/webm").mime =
      (if isVideoFormat "webm" then "video/" else "image/") ++ "webm" := by
  have h : resultOf (convertMedia false ⟨"a.mp4", "video/mp4", 5⟩ "webm" envAllOk) =
      .ok { mime := "video/webm" } := rfl
  exact ⟨h, claim9_mime_amended false ⟨"a.mp4", "video/mp4", 5⟩ "webm" envAllOk _ h⟩

/-- C3: the cancellation flag is reset at the start of each Job (the run does
not depend on the flag value `pre` the Job started with), and whenever the
body of `convertMedia` propagates an error that can coexist with a set flag
(anything after the first suspension point, i.e. other than the synchronous
`fileTooLarge`/`engineUnavailable` throws) while the flag reads true at the
catch handler, the Job's outcome is the `Cancelled` error, superseding the
underlying error; `Cancelled` is distinct from every other failure kind. -/
theorem claim3_cancel_supersedes (pre pre2 : Bool) (file : MFile) (fmt : String) (env : Env)
    (e : ConvError)
    (he : (convertMediaCore file fmt env St.init).2.2 = .error e)
    (hne1 : e ≠ .fileTooLarge) (hne2 : e ≠ .engineUnavailable)
    (hc : env.cancel (convertMediaCore file fmt env St.init).1.chk = true) :
    resultOf (convertMedia pre file fmt env) = .error .cancelled ∧
    convertMedia pre file fmt env = convertMedia pre2 file fmt env ∧
    (ConvError.cancelled ≠ .fileTooLarge ∧
     ConvError.cancelled ≠ .unsupportedTargetFormat fmt ∧
     ConvError.cancelled ≠ .engineUnavailable ∧
     ConvError.cancelled ≠ .engineExecutionFailed ∧
     ConvError.cancelled ≠ .writeFailed ∧
     ConvError.cancelled ≠ .readFailed) := by
  refine ⟨?_, rfl, by simp, by simp, by simp, by simp, by simp, by simp⟩
  simp only [convertMedia, resultOf]
  rw [he]
  cases e <;> first
    | exact absurd rfl hne1
    | exact absurd rfl hne2
    | simp [hc]

/-- C3 witness: a failing engine exec whose error reaches the entry point
while the flag was set between the inner rethrow and the catch handler is
reported as `Cancelled`, superseding `engineExecutionFailed`. -/
theorem claim3_witness :
    resultOf (convertMedia false ⟨"a.mp4", "video/mp4", 5⟩ "webm"
      { envAllOk with execOk := fun _ => false, cancel := fun k => k == 2 }) =
      .error .cancelled :=
  (claim3_cancel_supersedes false true ⟨"a.mp4", "video/mp4", 5⟩ "webm"
    { envAllOk with execOk := fun _ => false, cancel := fun k => k == 2 }
    .engineExecutionFailed rfl (by decide) (by decide) rfl).1

/-- C2 counterexample: an `audio/wav` input with target "png" matches no
scenario, yet `convertMedia` raises no classification error: it invokes the
engine exactly once with an EMPTY argument vector and (the engine resolving)
returns a success. -/
theorem claim2_counterexample :
    execsOf (traceOf (convertMedia false ⟨"a.wav", "audio/wav", 5⟩ "png" envAllOk)) = [[]] ∧
    resultOf (convertMedia false ⟨"a.wav", "audio/wav", 5⟩ "png" envAllOk) =
      .ok { mime := "image/png" } :=
  ⟨rfl, rfl⟩

/-- C2 (amended): for every combination matching no supported scenario —
audio input with a non-audio target, image input with an audio target, or a
webp image input with a non-png image target (the one image-to-image case
that reaches the FFmpeg path) — `convertMedia` does not signal any
classification error and does not guess arguments: the classifier falls
through leaving the argument vector empty, so the Job proceeds to a single
engine invocation whose argument vector is empty, and any failure comes from
the engine itself. -/
theorem claim2_unmatched_amended (pre : Bool) (file : MFile) (fmt : String) (env : Env)
    (hsz : file.size ≤ 100 * 1024 * 1024)
    (hiv : jsStartsWith file.mime "video/" = false)
    (hun : (jsStartsWith file.mime "audio/" = true ∧ isAudioFormat fmt = false) ∨
      (jsStartsWith file.mime "audio/" = false ∧ isVideoFormat fmt = false ∧
        isAudioFormat fmt = true) ∨
      (jsStartsWith file.mime "audio/" = false ∧ isVideoFormat fmt = false ∧
        isAudioFormat fmt = false ∧ jsIncludes file.mime "webp" = true ∧
        (jsToLower fmt == "png") = false))
    (hnc : ∀ k, env.cancel k = false) (hw : ∀ k, env.writeOk k = true)
    (hex : ∀ k, env.execOk k = true) (hrd : ∀ k, env.readOk k = true)
    (hav : env.ffmpegAvailable = true) :
    execsOf (traceOf (convertMedia pre file fmt env)) = [[]] ∧
    resultOf (convertMedia pre file fmt env) =
      .ok { mime := (if isVideoFormat fmt then "video/" else "image/") ++ fmt } := by
  obtain ⟨hG1, hG2, hG3, hG4, hG5⟩ := genericPath_nc_nogif env file fmt
    (jsStartsWith file.mime "video/") (jsStartsWith file.mime "audio/")
    (isVideoFormat fmt) (isAudioFormat fmt) St.init hnc hw hex hrd hav (by simp [hiv])
  have hwebp : (file.mime == "image/webp" && isVideoFormat fmt) = false := by
    rcases hun with ⟨hia, hta⟩ | ⟨hia, htv, hta⟩ | ⟨hia, htv, hta, hwp, hpng⟩
    · rcases hbe : (file.mime == "image/webp") with _ | _
      · simp [hbe]
      · have hme : file.mime = "image/webp" := by simpa using hbe
        rw [hme] at hia
        exact absurd hia (by decide)
    · simp [htv]
    · simp [htv]
  have hroute : ((!jsStartsWith file.mime "video/" && !jsStartsWith file.mime "audio/" &&
      !isVideoFormat fmt && !isAudioFormat fmt) &&
      (!jsIncludes file.mime "webp" || jsToLower fmt == "png")) = false := by
    rcases hun with ⟨hia, hta⟩ | ⟨hia, htv, hta⟩ | ⟨hia, htv, hta, hwp, hpng⟩
    · simp [hia]
    · simp [hta]
    · simp [hwp, hpng]
  have hrun := convertMedia_generic pre env file fmt hsz hroute hwebp hav _ hG1
  rw [hrun]
  constructor
  · simp only [traceOf]
    rw [hG3]
    rcases hun with ⟨hia, hta⟩ | ⟨hia, htv, hta⟩ | ⟨hia, htv, hta, hwp, hpng⟩
    · simp [scenarioArgs, hiv, hia, hta]
    · simp [scenarioArgs, hiv, hia, htv, hta]
    · simp [scenarioArgs, hiv, hia, htv, hta]
  · simp [resultOf]

/-- C2 witness: a concrete audio input with an image target (mp3 audio to
bmp) and a concrete image input with an audio target (png to mp3) each run
one engine invocation with empty arguments and succeed with no
classification error. -/
theorem claim2_witness :
    (execsOf (traceOf (convertMedia false ⟨"t.mp3", "audio/mpeg", 9⟩ "bmp" envAllOk)) =
        [[]] ∧
      resultOf (convertMedia false ⟨"t.mp3", "audio/mpeg", 9⟩ "bmp" envAllOk) =
        .ok { mime := (if isVideoFormat "bmp" then "video/" else "image/") ++ "bmp" }) ∧
    (execsOf (traceOf (convertMedia false ⟨"p.png", "image/png", 9⟩ "mp3" envAllOk)) =
        [[]] ∧
      resultOf (convertMedia false ⟨"p.png", "image/png", 9⟩ "mp3" envAllOk) =
        .ok { mime := (if isVideoFormat "mp3" then "video/" else "image/") ++ "mp3" }) :=
  ⟨claim2_unmatched_amended false ⟨"t.mp3", "audio/mpeg", 9⟩ "bmp" envAllOk (by decide)
      (by decide) (Or.inl ⟨by decide, by decide⟩) (fun _ => rfl) (fun _ => rfl)
      (fun _ => rfl) (fun _ => rfl) rfl,
   claim2_unmatched_amended false ⟨"p.png", "image/png", 9⟩ "mp3" envAllOk (by decide)
      (by decide) (Or.inr (Or.inl ⟨by decide, by decide, by decide⟩)) (fun _ => rfl)
      (fun _ => rfl) (fun _ => rfl) (fun _ => rfl) rfl⟩

/-- C8: a static image-to-image conversion (neither side video or audio) is
routed to the ImageMagick fast path — and therefore produces no
transcoding-engine event at all — exactly when the input MIME does not
contain "webp" or the target format lowercases to "png"; a webp input with a
non-png image target is routed to the FFmpeg path instead.  End to end, a PNG
input with target "jpg" under a never-cancelled environment succeeds with
bytes tagged `image/jpg` and an engine-event-free trace. -/
theorem claim8_magick_routing (pre : Bool) (file : MFile) (fmt : String) (env : Env)
    (hsz : file.size ≤ 100 * 1024 * 1024)
    (hiv : jsStartsWith file.mime "video/" = false)
    (hia : jsStartsWith file.mime "audio/" = false)
    (htv : isVideoFormat fmt = false) (hta : isAudioFormat fmt = false) :
    ((!jsIncludes file.mime "webp" || jsToLower fmt == "png") = true →
      convertMediaCore file fmt env St.init = convertWithImageMagick file fmt env St.init ∧
      engineEventsOf (traceOf (convertMedia pre file fmt env)) = []) ∧
    (jsIncludes file.mime "webp" = true → (jsToLower fmt == "png") = false →
      convertMediaCore file fmt env St.init =
        convertWithFFmpeg file fmt env false false false false St.init) ∧
    (∀ (name : String) (sz : Nat) (env2 : Env), sz ≤ 100 * 1024 * 1024 →
      (∀ k, env2.cancel k = false) →
      resultOf (convertMedia pre ⟨name, "image/png", sz⟩ "jpg" env2) =
        .ok { mime := "image/jpg" } ∧
      engineEventsOf (traceOf (convertMedia pre ⟨name, "image/png", sz⟩ "jpg" env2)) = []) := by
  refine ⟨fun hcond => ⟨?_, ?_⟩, fun hw hp => ?_, fun name sz env2 hsz2 hnc2 => ⟨?_, ?_⟩⟩
  · exact core_to_magick file fmt env (by omega) (by simp [hiv, hia, htv, hta, hcond])
  · rw [wrapper_engineEvents]
    rw [core_to_magick file fmt env (by omega) (by simp [hiv, hia, htv, hta, hcond])]
    exact (magick_trace file fmt env St.init).1
  · have hr := core_to_ffmpeg file fmt env (by omega) (by simp [hw, hp])
    rw [hr, hiv, hia, htv, hta]
  · have hrun := wrapper_ok pre ⟨name, "image/png", sz⟩ "jpg" env2 _
      ((core_to_magick ⟨name, "image/png", sz⟩ "jpg" env2 (by simpa using hsz2)
        (by rfl)).trans (magick_nc ⟨name, "image/png", sz⟩ "jpg" env2 St.init hnc2
          "Jpg" rfl)) { mime := "image/jpg" } rfl
    rw [hrun]
    rfl
  · rw [wrapper_engineEvents]
    rw [core_to_magick ⟨name, "image/png", sz⟩ "jpg" env2 (by simpa using hsz2) (by rfl)]
    exact (magick_trace ⟨name, "image/png", sz⟩ "jpg" env2 St.init).1

/-- C8 witness: a concrete PNG input converted to "jpg" routes through the
ImageMagick path, never touching the engine filesystem, and is tagged
`image/jpg`. -/
theorem claim8_witness :
    resultOf (convertMedia false ⟨"pic.png", "image/png", 1048576⟩ "jpg" envAllOk) =
      .ok { mime := "image/jpg" } ∧
    engineEventsOf (traceOf (convertMedia false ⟨"pic.png", "image/png", 1048576⟩ "jpg"
      envAllOk)) = [] :=
  (claim8_magick_routing false ⟨"x", "image/png", 0⟩ "jpg" envAllOk (by decide) (by decide)
    (by decide) (by decide) (by decide)).2.2 "pic.png" 1048576 envAllOk (by decide)
    (fun _ => rfl)

/-- C7: for every video input whose target format lowercases to "gif", the
conversion issues exactly two engine invocations — first the palette
generation pass, then the palette-based encode — and deletion of the
generated palette resource is attempted on completion. -/
theorem claim7_gif_two_pass (pre : Bool) (file : MFile) (fmt : String) (env : Env)
    (hsz : file.size ≤ 100 * 1024 * 1024)
    (hiv : jsStartsWith file.mime "video/" = true)
    (hgif : jsToLower fmt = "gif")
    (hnc : ∀ k, env.cancel k = false) (hw : ∀ k, env.writeOk k = true)
    (hex : ∀ k, env.execOk k = true) (hrd : ∀ k, env.readOk k = true)
    (hav : env.ffmpegAvailable = true) :
    execsOf (traceOf (convertMedia pre file fmt env)) =
      [["-i", "input_" ++ file.name, "-filter_complex", "[0:v] palettegen", "palette.png"],
       ["-i", "input_" ++ file.name, "-i", "palette.png", "-filter_complex",
        "[0:v][1:v] paletteuse", "output." ++ fmt]] ∧
    "palette.png" ∈ deletionsOf (traceOf (convertMedia pre file fmt env)) ∧
    resultOf (convertMedia pre file fmt env) = .ok { mime := "video/" ++ fmt } := by
  have htv : isVideoFormat fmt = true := by
    unfold isVideoFormat
    rw [hgif]
    rfl
  have hta : isAudioFormat fmt = false := by
    unfold isAudioFormat
    rw [hgif]
    rfl
  have hwebp : (file.mime == "image/webp") = false := by
    rcases hbe : (file.mime == "image/webp") with _ | _
    · rfl
    · have hme : file.mime = "image/webp" := by simpa using hbe
      rw [hme] at hiv
      exact absurd hiv (by decide)
  obtain ⟨hG1, hG2, hG3, hG4⟩ := genericPath_nc_gif env file fmt
    (jsStartsWith file.mime "audio/") (isVideoFormat fmt) (isAudioFormat fmt) St.init
    hnc hw hex hrd hav hgif
  have hok : (genericPath file fmt env (jsStartsWith file.mime "video/")
      (jsStartsWith file.mime "audio/") (isVideoFormat fmt) (isAudioFormat fmt)
      St.init).2.2 =
      .ok { mime := (if isVideoFormat fmt then "video/" else "image/") ++ fmt } := by
    rw [hiv]
    exact hG1
  have hrun := convertMedia_generic pre env file fmt hsz (by simp [hiv])
    (by simp [hwebp]) hav _ hok
  rw [hrun]
  refine ⟨?_, ?_, ?_⟩
  · simp only [traceOf]
    rw [hiv, hG3]
    rfl
  · simp only [traceOf]
    rw [hiv, hG4]
    simp
  · simp [resultOf, htv]

/-- C7 witness: a concrete mp4 video converted to "gif" triggers exactly the
two palette-based engine invocations and attempts deletion of the palette. -/
theorem claim7_witness :
    execsOf (traceOf (convertMedia false ⟨"v.mp4", "video/mp4", 7⟩ "gif" envAllOk)) =
      [["-i", "input_v.mp4", "-filter_complex", "[0:v] palettegen", "palette.png"],
       ["-i", "input_v.mp4", "-i", "palette.png", "-filter_complex",
        "[0:v][1:v] paletteuse", "output.gif"]] ∧
    "palette.png" ∈ deletionsOf (traceOf (convertMedia false ⟨"v.mp4", "video/mp4", 7⟩
      "gif" envAllOk)) ∧
    resultOf (convertMedia false ⟨"v.mp4", "video/mp4", 7⟩ "gif" envAllOk) =
      .ok { mime := "video/gif" } :=
  claim7_gif_two_pass false ⟨"v.mp4", "video/mp4", 7⟩ "gif" envAllOk (by decide) (by decide)
    (by decide) (fun _ => rfl) (fun _ => rfl) (fun _ => rfl) (fun _ => rfl) rfl

/-- C5: for an animated-WebP input with a video target under an environment
that never cancels and whose engine operations all succeed, the pipeline
registers exactly `frames` frame resources named
`frame-<index left-padded with zeros to width 4>.png` in order, runs exactly
one encode invocation at a constant 25 fps with even-dimension scaling, and
reports one progress checkpoint per batch of 10 frames (after batch `k` the
completed count is `min (10*(k+1)) frames`), before the encode progress that
follows. -/
theorem claim5_anim_pipeline (pre : Bool) (env : Env) (name fmt : String) (sz : Nat)
    (hsz : sz ≤ 100 * 1024 * 1024) (htv : isVideoFormat fmt = true)
    (hnc : ∀ k, env.cancel k = false) (hw : ∀ k, env.writeOk k = true)
    (hex : ∀ k, env.execOk k = true) (hrd : ∀ k, env.readOk k = true)
    (hav : env.ffmpegAvailable = true) :
    resultOf (convertMedia pre ⟨name, "image/webp", sz⟩ fmt env) =
      .ok { mime := "video/" ++ fmt } ∧
    registeredOf (traceOf (convertMedia pre ⟨name, "image/webp", sz⟩ fmt env)) =
      (List.range env.frames).map frameName ∧
    (registeredOf (traceOf (convertMedia pre ⟨name, "image/webp", sz⟩ fmt env))).length =
      env.frames ∧
    execsOf (traceOf (convertMedia pre ⟨name, "image/webp", sz⟩ fmt env)) =
      [["-framerate", "25", "-i", "frame-%04d.png", "-vf",
        "scale=trunc(iw/2)*2:trunc(ih/2)*2", "-c:v", getVideoCodec fmt,
        "-pix_fmt", "yuv420p", "output." ++ fmt]] ∧
    progressesOf (traceOf (convertMedia pre ⟨name, "image/webp", sz⟩ fmt env)) =
      (List.range ((env.frames + 9) / 10)).map
        (fun k => extractProgress env.frames (min (10 * (k + 1)) env.frames)) ++
      (env.execProgress 0).map encodeProgress := by
  have hrun := convertMedia_anim pre env name fmt sz hsz htv hnc hex hrd hav
  obtain ⟨hA1, hA2, hA3, hA4, hA5, hA6⟩ :=
    animPath_nc env ⟨name, "image/webp", sz⟩ fmt St.init hnc hex hrd hav
  have hfilter : (List.range env.frames).filter (fun j => env.writeOk (St.init.wr + j)) =
      List.range env.frames :=
    List.filter_eq_self.mpr (fun a _ => hw _)
  rw [hrun]
  refine ⟨rfl, ?_, ?_, ?_, ?_⟩
  · simp only [traceOf]
    rw [hA3, hfilter]
  · simp only [traceOf]
    rw [hA3, hfilter]
    simp
  · simp only [traceOf]
    rw [hA4]
    rfl
  · simp only [traceOf]
    rw [hA6, batchEnds_closed env.frames env.frames 0 (by omega)]
    simp only [Nat.sub_zero, Nat.zero_add, List.map_map, Function.comp]
    rfl

/-- C5 witness: a 12-frame animated WebP converted to mp4 registers the 12
zero-padded frame names, runs one 25 fps encode, and reports the two batch
checkpoints 33 and 40. -/
theorem claim5_witness :
    resultOf (convertMedia false ⟨"anim.webp", "image/webp", 64⟩ "mp4"
      { envAllOk with frames := 12 }) = .ok { mime := "video/mp4" } ∧
    registeredOf (traceOf (convertMedia false ⟨"anim.webp", "image/webp", 64⟩ "mp4"
      { envAllOk with frames := 12 })) =
      ["frame-0000.png", "frame-0001.png", "frame-0002.png", "frame-0003.png",
       "frame-0004.png", "frame-0005.png", "frame-0006.png", "frame-0007.png",
       "frame-0008.png", "frame-0009.png", "frame-0010.png", "frame-0011.png"] ∧
    (registeredOf (traceOf (convertMedia false ⟨"anim.webp", "image/webp", 64⟩ "mp4"
      { envAllOk with frames := 12 }))).length = 12 ∧
    execsOf (traceOf (convertMedia false ⟨"anim.webp", "image/webp", 64⟩ "mp4"
      { envAllOk with frames := 12 })) =
      [["-framerate", "25", "-i", "frame-%04d.png", "-vf",
        "scale=trunc(iw/2)*2:trunc(ih/2)*2", "-c:v", "libx264",
        "-pix_fmt", "yuv420p", "output.mp4"]] ∧
    progressesOf (traceOf (convertMedia false ⟨"anim.webp", "image/webp", 64⟩ "mp4"
      { envAllOk with frames := 12 })) = [33, 40] := by
  obtain ⟨h1, h2, h3, h4, h5⟩ := claim5_anim_pipeline false
    { envAllOk with frames := 12 } "anim.webp" "mp4" 64 (by decide) (by decide)
    (fun _ => rfl) (fun _ => rfl) (fun _ => rfl) (fun _ => rfl) rfl
  refine ⟨h1, ?_, h3, h4, ?_⟩
  · rw [h2]
    decide
  · rw [h5]
    have e1 : extractProgress 12 10 = 33 := by
      norm_num [extractProgress, jsRound]
    have e2 : extractProgress 12 12 = 40 := by
      norm_num [extractProgress, jsRound]
    simp [List.range_succ]
    exact ⟨e1, e2, rfl⟩

/-- C10: during animated-WebP frame extraction, a failing frame write never
fails the batch or the Job: under an environment that never cancels, whose
execs and reads succeed, but whose frame writes may fail arbitrarily, the
pipeline still completes with a success, still runs its single encode
invocation, and registers exactly the frames whose writes succeeded (possibly
fewer than were decoded). -/
theorem claim10_frame_write_errors (pre : Bool) (env : Env) (name fmt : String) (sz : Nat)
    (hsz : sz ≤ 100 * 1024 * 1024) (htv : isVideoFormat fmt = true)
    (hnc : ∀ k, env.cancel k = false)
    (hex : ∀ k, env.execOk k = true) (hrd : ∀ k, env.readOk k = true)
    (hav : env.ffmpegAvailable = true) :
    resultOf (convertMedia pre ⟨name, "image/webp", sz⟩ fmt env) =
      .ok { mime := "video/" ++ fmt } ∧
    execsOf (traceOf (convertMedia pre ⟨name, "image/webp", sz⟩ fmt env)) = [animArgs fmt] ∧
    registeredOf (traceOf (convertMedia pre ⟨name, "image/webp", sz⟩ fmt env)) =
      ((List.range env.frames).filter (fun j => env.writeOk j)).map frameName := by
  have hrun := convertMedia_anim pre env name fmt sz hsz htv hnc hex hrd hav
  obtain ⟨hA1, hA2, hA3, hA4, hA5, hA6⟩ :=
    animPath_nc env ⟨name, "image/webp", sz⟩ fmt St.init hnc hex hrd hav
  rw [hrun]
  refine ⟨rfl, ?_, ?_⟩
  · simp only [traceOf]
    rw [hA4]
  · simp only [traceOf]
    rw [hA3]
    simp [St.init]

/-- C10 witness: with the second frame write failing out of three decoded
frames, the Job still succeeds, still encodes once, and registers the two
frames whose writes succeeded. -/
theorem claim10_witness :
    resultOf (convertMedia false ⟨"a.webp", "image/webp", 5⟩ "mp4"
      { envAllOk with frames := 3, writeOk := fun k => k != 1 }) =
      .ok { mime := "video/mp4" } ∧
    execsOf (traceOf (convertMedia false ⟨"a.webp", "image/webp", 5⟩ "mp4"
      { envAllOk with frames := 3, writeOk := fun k => k != 1 })) = [animArgs "mp4"] ∧
    registeredOf (traceOf (convertMedia false ⟨"a.webp", "image/webp", 5⟩ "mp4"
      { envAllOk with frames := 3, writeOk := fun k => k != 1 })) =
      ["frame-0000.png", "frame-0002.png"] := by
  obtain ⟨h1, h2, h3⟩ := claim10_frame_write_errors false
    { envAllOk with frames := 3, writeOk := fun k => k != 1 } "a.webp" "mp4" 5
    (by decide) (by decide) (fun _ => rfl) (fun _ => rfl) (fun _ => rfl) rfl
  refine ⟨h1, h2, ?_⟩
  rw [h3]
  decide

/-- C6 counterexample: the spec says progress callbacks are monotonically
non-decreasing within a Job, but encode-phase progress is passed straight
through from the engine, so an engine that reports a regressing ratio
produces a regressing callback sequence: with one decoded frame and engine
reports 1/2 then 3/10, the Job emits 40, 70, 58, which is not
non-decreasing. -/
theorem claim6_counterexample :
    progressesOf (traceOf (convertMedia false ⟨"a.webp", "image/webp", 5⟩ "mp4"
      { envAllOk with frames := 1, execProgress := fun _ => [1/2, 3/10] })) =
      [40, 70, 58] ∧
    ¬ List.Chain' (· ≤ ·)
      (progressesOf (traceOf (convertMedia false ⟨"a.webp", "image/webp", 5⟩ "mp4"
        { envAllOk with frames := 1, execProgress := fun _ => [1/2, 3/10] }))) := by
  have hP : progressesOf (traceOf (convertMedia false ⟨"a.webp", "image/webp", 5⟩ "mp4"
      { envAllOk with frames := 1, execProgress := fun _ => [1/2, 3/10] })) =
      [40, 70, 58] := by
    have hrun := convertMedia_anim false
      { envAllOk with frames := 1, execProgress := fun _ => [1/2, 3/10] }
      "a.webp" "mp4" 5 (by decide) (by decide) (fun _ => rfl) (fun _ => rfl)
      (fun _ => rfl) rfl
    obtain ⟨hA1, hA2, hA3, hA4, hA5, hA6⟩ := animPath_nc
      { envAllOk with frames := 1, execProgress := fun _ => [1/2, 3/10] }
      ⟨"a.webp", "image/webp", 5⟩ "mp4" St.init (fun _ => rfl) (fun _ => rfl)
      (fun _ => rfl) rfl
    rw [hrun]
    simp only [traceOf]
    rw [hA6]
    rw [batchEnds_pos (by decide), batchEnds_neg (by decide)]
    have e3 : encodeProgress (3/10) = 58 := by
      norm_num [encodeProgress, jsRound]
    simp [e3]
    constructor
    · norm_num [extractProgress, jsRound]
    · norm_num [encodeProgress, jsRound]
  refine ⟨hP, ?_⟩
  rw [hP]
  intro hC
  rw [List.chain'_cons, List.chain'_cons] at hC
  have h58 := hC.2.1
  omega

/-- C6 (amended): for an animated-WebP-to-video Job that is neither cancelled
nor hits an engine failure, the progress sequence is the extraction
checkpoints followed by the encode reports; the extraction checkpoints all lie
in [0,40]; and PROVIDED the engine's own encode reports are within [0,1] and
non-decreasing, the encode-phase values lie in [40,100] and the whole
per-Job sequence is monotonically non-decreasing. (The unconditional claim is
false: engine encode reports are passed through unchecked, see the
counterexample.) -/
theorem claim6_progress_amended (pre : Bool) (env : Env) (name fmt : String) (sz : Nat)
    (hsz : sz ≤ 100 * 1024 * 1024) (htv : isVideoFormat fmt = true)
    (hnc : ∀ k, env.cancel k = false)
    (hex : ∀ k, env.execOk k = true) (hrd : ∀ k, env.readOk k = true)
    (hav : env.ffmpegAvailable = true)
    (hp : ∀ p ∈ env.execProgress 0, 0 ≤ p ∧ p ≤ 1)
    (hm : List.Chain' (· ≤ ·) (env.execProgress 0)) :
    progressesOf (traceOf (convertMedia pre ⟨name, "image/webp", sz⟩ fmt env)) =
      (batchEnds env.frames 0).map (extractProgress env.frames) ++
        (env.execProgress 0).map encodeProgress ∧
    (∀ x ∈ (batchEnds env.frames 0).map (extractProgress env.frames),
      0 ≤ x ∧ x ≤ 40) ∧
    (∀ y ∈ (env.execProgress 0).map encodeProgress, 40 ≤ y ∧ y ≤ 100) ∧
    List.Chain' (· ≤ ·)
      (progressesOf (traceOf (convertMedia pre ⟨name, "image/webp", sz⟩ fmt env))) := by
  have hrun := convertMedia_anim pre env name fmt sz hsz htv hnc hex hrd hav
  obtain ⟨hA1, hA2, hA3, hA4, hA5, hA6⟩ :=
    animPath_nc env ⟨name, "image/webp", sz⟩ fmt St.init hnc hex hrd hav
  have hPe : progressesOf (traceOf (convertMedia pre ⟨name, "image/webp", sz⟩ fmt env)) =
      (batchEnds env.frames 0).map (extractProgress env.frames) ++
        (env.execProgress 0).map encodeProgress := by
    rw [hrun]
    simp only [traceOf]
    rw [hA6]
    rfl
  have hext : ∀ x ∈ (batchEnds env.frames 0).map (extractProgress env.frames),
      0 ≤ x ∧ x ≤ 40 := by
    intro x hx
    rw [List.mem_map] at hx
    obtain ⟨e, he, rfl⟩ := hx
    have hb := batchEnds_mem env.frames env.frames 0 (by omega) e he
    exact ⟨extractProgress_nonneg _ _, extractProgress_le_40 _ _ hb.2⟩
  have henc : ∀ y ∈ (env.execProgress 0).map encodeProgress, 40 ≤ y ∧ y ≤ 100 := by
    intro y hy
    rw [List.mem_map] at hy
    obtain ⟨p, hpm, rfl⟩ := hy
    exact ⟨encodeProgress_ge_40 (hp p hpm).1, encodeProgress_le_100 (hp p hpm).2⟩
  refine ⟨hPe, hext, henc, ?_⟩
  rw [hPe, List.chain'_append]
  refine ⟨?_, ?_, ?_⟩
  · rw [List.chain'_map]
    exact (batchEnds_chain env.frames env.frames 0 (by omega)).imp
      (fun a b hab => extractProgress_mono env.frames hab)
  · rw [List.chain'_map]
    exact hm.imp (fun a b hab => encodeProgress_mono hab)
  · intro x hx y hy
    have hx' := hext x (List.mem_of_mem_getLast? hx)
    have hy' := henc y (List.mem_of_mem_head? hy)
    omega

/-- C6 witness: with one decoded frame and well-behaved engine encode reports
1/2 then 1, the Job's progress sequence is monotonically non-decreasing. -/
theorem claim6_witness :
    List.Chain' (· ≤ ·)
      (progressesOf (traceOf (convertMedia false ⟨"a.webp", "image/webp", 5⟩ "mp4"
        { envAllOk with frames := 1, execProgress := fun _ => [1/2, 1] }))) :=
  (claim6_progress_amended false
    { envAllOk with frames := 1, execProgress := fun _ => [1/2, 1] }
    "a.webp" "mp4" 5 (by decide) (by decide) (fun _ => rfl) (fun _ => rfl)
    (fun _ => rfl) rfl
    (by
      intro p hpm
      fin_cases hpm <;> norm_num)
    (by norm_num [List.chain'_cons, List.chain'_singleton])).2.2.2

/-- C1 counterexample: the spec says cleanup attempts deletion of every
intermediate resource the Job registered, on every exit path, but the generic
FFmpeg path never records its input file in its temp-file list, so when the
engine invocation fails the catch-block cleanup deletes nothing: the Job
registered input_a.mp4, fails with EngineExecutionFailed, and attempts no
deletion at all. -/
theorem claim1_counterexample :
    registeredOf (traceOf (convertMedia false ⟨"a.mp4", "video/mp4", 5⟩ "webm"
      { envAllOk with execOk := fun _ => false })) = ["input_a.mp4"] ∧
    deletionsOf (traceOf (convertMedia false ⟨"a.mp4", "video/mp4", 5⟩ "webm"
      { envAllOk with execOk := fun _ => false })) = [] ∧
    resultOf (convertMedia false ⟨"a.mp4", "video/mp4", 5⟩ "webm"
      { envAllOk with execOk := fun _ => false }) =
      .error .engineExecutionFailed :=
  ⟨rfl, rfl, rfl⟩

/-- C1 (amended): what the code actually guarantees about cleanup.
(a) Deletion outcomes never change a Job result: the result is identical
under any deletion behaviour, so a failed deletion never masks the outcome.
(b) On a Job that is neither cancelled nor hits any engine error, every
registered intermediate resource has its deletion attempted.
(c) Each cleanup call attempts deletion of exactly the names on its temp-file
list, in order (so a name listed twice is attempted twice, without error).
The unconditional per-exit-path claim is false: on the generic path's error
exit the temp-file list has never received the registered input file, so
nothing is deleted (see the counterexample). -/
theorem claim1_cleanup_amended :
    (∀ (pre : Bool) (file : MFile) (fmt : String) (env : Env) (g : Nat → Bool),
      resultOf (convertMedia pre file fmt { env with deleteOk := g }) =
        resultOf (convertMedia pre file fmt env)) ∧
    (∀ (pre : Bool) (file : MFile) (fmt : String) (env : Env),
      file.size ≤ 100 * 1024 * 1024 →
      (∀ k, env.cancel k = false) → (∀ k, env.writeOk k = true) →
      (∀ k, env.execOk k = true) → (∀ k, env.readOk k = true) →
      env.ffmpegAvailable = true →
      registeredOf (traceOf (convertMedia pre file fmt env)) ⊆
        deletionsOf (traceOf (convertMedia pre file fmt env))) ∧
    (∀ (env : Env) (st : St) (fs : List String),
      deletionsOf (cleanupTempFiles env true st fs).2 = fs) := by
  refine ⟨?_, ?_, ?_⟩
  · intro pre file fmt env g
    exact @convertMedia_agree { env with deleteOk := g } env
      ⟨rfl, rfl, rfl, rfl, rfl, rfl, rfl⟩ pre file fmt
  · intro pre file fmt env hsz hnc hw hex hrd hav
    obtain ⟨hreg, hdel⟩ := wrapper_files pre file fmt env
    rw [hreg, hdel]
    rcases hroute : ((!jsStartsWith file.mime "video/" && !jsStartsWith file.mime "audio/" &&
        !isVideoFormat fmt && !isAudioFormat fmt) &&
        (!jsIncludes file.mime "webp" || jsToLower fmt == "png")) with _ | _
    · rw [core_to_ffmpeg file fmt env (by omega) hroute]
      rcases hwebp : (file.mime == "image/webp" && isVideoFormat fmt) with _ | _
      · rcases hgif : (jsStartsWith file.mime "video/" && jsToLower fmt == "gif") with _ | _
        · obtain ⟨hG1, hG2, hG3, hG4, hG5⟩ := genericPath_nc_nogif env file fmt
            (jsStartsWith file.mime "video/") (jsStartsWith file.mime "audio/")
            (isVideoFormat fmt) (isAudioFormat fmt) St.init hnc hw hex hrd hav hgif
          rw [ffmpeg_to_generic file fmt env (jsStartsWith file.mime "video/")
            (jsStartsWith file.mime "audio/") (isVideoFormat fmt) (isAudioFormat fmt)
            hav hwebp _ hG1]
          dsimp only
          rw [hG2, hG4]
          intro x hx
          simp only [List.mem_singleton] at hx
          subst hx
          simp
        · simp only [Bool.and_eq_true] at hgif
          have hiv := hgif.1
          have hfmt : jsToLower fmt = "gif" := by simpa using hgif.2
          rw [hiv]
          obtain ⟨hG1, hG2, hG3, hG4⟩ := genericPath_nc_gif env file fmt
            (jsStartsWith file.mime "audio/") (isVideoFormat fmt) (isAudioFormat fmt)
            St.init hnc hw hex hrd hav hfmt
          rw [ffmpeg_to_generic file fmt env true
            (jsStartsWith file.mime "audio/") (isVideoFormat fmt) (isAudioFormat fmt)
            hav hwebp _ hG1]
          dsimp only
          rw [hG2, hG4]
          intro x hx
          simp only [List.mem_singleton] at hx
          subst hx
          simp
      · obtain ⟨hA1, hA2, hA3, hA4, hA5, hA6⟩ :=
          animPath_nc env file fmt St.init hnc hex hrd hav
        rw [ffmpeg_to_anim file fmt env (jsStartsWith file.mime "video/")
          (jsStartsWith file.mime "audio/") (isVideoFormat fmt) (isAudioFormat fmt)
          hav hwebp _ hA1]
        dsimp only
        rw [hA3, hA5]
        intro x hx
        rw [List.mem_map] at hx
        obtain ⟨j, hj, rfl⟩ := hx
        rw [List.mem_filter] at hj
        exact List.mem_append_left _ (List.mem_map_of_mem frameName hj.1)
    · rw [core_to_magick file fmt env (by omega) hroute]
      obtain ⟨hM1, hM2, hM3, hM4⟩ := magick_trace file fmt env St.init
      rw [hM2]
      intro x hx
      simp at hx
  · intro env st fs
    exact cleanupTempFiles_deletions env st fs

/-- C1 witness: deletion failures leave a successful video conversion's
result unchanged; on the fully successful run every registered resource is
among the attempted deletions; and a cleanup call over a list naming the same
resource twice attempts it twice without error. -/
theorem claim1_witness :
    resultOf (convertMedia false ⟨"w.mp4", "video/mp4", 3⟩ "mp4"
      { envAllOk with deleteOk := fun _ => false }) =
      resultOf (convertMedia false ⟨"w.mp4", "video/mp4", 3⟩ "mp4" envAllOk) ∧
    registeredOf (traceOf (convertMedia false ⟨"w.mp4", "video/mp4", 3⟩ "mp4" envAllOk)) ⊆
      deletionsOf (traceOf (convertMedia false ⟨"w.mp4", "video/mp4", 3⟩ "mp4" envAllOk)) ∧
    deletionsOf (cleanupTempFiles envAllOk true St.init ["x.png", "x.png"]).2 =
      ["x.png", "x.png"] :=
  ⟨claim1_cleanup_amended.1 false ⟨"w.mp4", "video/mp4", 3⟩ "mp4" envAllOk (fun _ => false),
   claim1_cleanup_amended.2.1 false ⟨"w.mp4", "video/mp4", 3⟩ "mp4" envAllOk
     (by decide) (fun _ => rfl) (fun _ => rfl) (fun _ => rfl) (fun _ => rfl) rfl,
   claim1_cleanup_amended.2.2 envAllOk St.init ["x.png", "x.png"]⟩

end Claims

end MediaConvert